import Mathlib

/-!
Verification development for the `DataProcessing` pipeline
(`src/data_processing.py`): a linear sklearn-style pipeline that loads a
CSV table, label-encodes categorical feature columns, selects the top-5
features by chi-squared score, performs a stratified train/test split with
standard scaling, and persists five artifacts.

Modelling conventions:
* Table cells are `Value` (integer, string, or rational); CSV floats are
  modelled as exact rationals.
* The seeded shuffle of `sklearn.model_selection.train_test_split`
  (`random_state=42`) is modelled by a deterministic LCG-driven selection
  shuffle; the claims depend on its determinism and on its being a
  permutation, not on the exact permutation the library's Mersenne Twister
  produces.
* A standard-scaled cell `(x - mean)/sqrt(var)` is represented by the pair
  `(x - mean, var)` of exact rationals, keeping the embedding executable;
  two scaled cells built from the same column statistics are equal iff the
  pairs are equal.
* Rational division by zero yields `0` (Lean's convention); the spec's
  policy note says chi-squared scores on out-of-domain inputs are
  "silently invalid", and no claim depends on their numeric value.
-/

namespace DataProc

open scoped List

/-- An executable exact rational: integer numerator over a positive
natural denominator, kept unnormalised so that every operation reduces in
the kernel.  Models the float64 arithmetic of the library exactly (each
represented value is the true rational the computation denotes). -/
structure Q where
  num : Int
  den : Nat
  den_pos : 0 < den

instance : Inhabited Q := ⟨⟨0, 1, Nat.one_pos⟩⟩

instance : DecidableEq Q := fun p q =>
  if h : p.num = q.num ∧ p.den = q.den then
    isTrue (by cases p; cases q; simp_all)
  else
    isFalse (by intro he; subst he; simp at h)

instance : Repr Q := ⟨fun q _ => repr (q.num, q.den)⟩

/-- Embed an integer. -/
def Q.ofInt (i : Int) : Q := ⟨i, 1, Nat.one_pos⟩

/-- Embed a natural number. -/
def Q.ofNat (n : Nat) : Q := ⟨(n : Int), 1, Nat.one_pos⟩

/-- Addition of fractions. -/
def Q.add (p q : Q) : Q :=
  ⟨p.num * q.den + q.num * p.den, p.den * q.den, Nat.mul_pos p.den_pos q.den_pos⟩

/-- Subtraction of fractions. -/
def Q.sub (p q : Q) : Q :=
  ⟨p.num * q.den - q.num * p.den, p.den * q.den, Nat.mul_pos p.den_pos q.den_pos⟩

/-- Multiplication of fractions. -/
def Q.mul (p q : Q) : Q :=
  ⟨p.num * q.num, p.den * q.den, Nat.mul_pos p.den_pos q.den_pos⟩

/-- Division of fractions; division by a zero fraction yields zero (the
library's float semantics would give inf/nan there; no claim depends on
that value). -/
def Q.div (p q : Q) : Q :=
  if h : q.num = 0 then ⟨0, 1, Nat.one_pos⟩
  else ⟨p.num * q.den * q.num.sign, p.den * q.num.natAbs,
    Nat.mul_pos p.den_pos (Int.natAbs_pos.mpr h)⟩

/-- Sum of a list of fractions. -/
def Q.listSum (l : List Q) : Q :=
  l.foldr Q.add (Q.ofInt 0)

/-- The rational order, by cross-multiplication. -/
def Q.le (p q : Q) : Prop :=
  p.num * (q.den : Int) ≤ q.num * (p.den : Int)

instance : DecidableRel Q.le := fun p q =>
  inferInstanceAs (Decidable (p.num * (q.den : Int) ≤ q.num * (p.den : Int)))

theorem Q.le_total (p q : Q) : Q.le p q ∨ Q.le q p :=
  Int.le_total _ _

theorem Q.le_trans {a b c : Q} (h1 : Q.le a b) (h2 : Q.le b c) : Q.le a c := by
  have hb : (0 : Int) < (b.den : Int) := by exact_mod_cast b.den_pos
  have hc : (0 : Int) ≤ (c.den : Int) := by positivity
  have ha : (0 : Int) ≤ (a.den : Int) := by positivity
  have h1' := mul_le_mul_of_nonneg_right h1 hc
  have h2' := mul_le_mul_of_nonneg_right h2 ha
  have key : a.num * (c.den : Int) * (b.den : Int) ≤
      c.num * (a.den : Int) * (b.den : Int) := by nlinarith [h1', h2']
  exact le_of_mul_le_mul_right key hb

/-- A single table cell: integer, string, or rational (float) payload. -/
inductive Value
  | int (i : Int)
  | str (s : String)
  | rat (q : Q)
deriving DecidableEq, Repr, Inhabited

/-- Column dtypes as pandas sees them: `int64`, `float64`, `object`. -/
inductive Dtype
  | tInt
  | tFloat
  | tStr
deriving DecidableEq, Repr, Inhabited

/-- One named, typed column of a pandas DataFrame. -/
structure Column where
  name : String
  dtype : Dtype
  cells : List Value
deriving DecidableEq, Repr, Inhabited

/-- An in-memory pandas DataFrame: an ordered list of named columns. -/
structure DataFrame where
  cols : List Column
deriving DecidableEq, Repr, Inhabited

/-- The column names of a DataFrame. -/
def DataFrame.names (df : DataFrame) : List String :=
  df.cols.map (·.name)

/-- Number of rows (length of the first column; 0 for a column-less frame). -/
def DataFrame.nRows (df : DataFrame) : Nat :=
  match df.cols with
  | [] => 0
  | c :: _ => c.cells.length

/-- Model of `df.drop(columns=[nm])`: remove every column named `nm`. -/
def DataFrame.dropCol (df : DataFrame) (nm : String) : DataFrame :=
  ⟨df.cols.filter (fun c => c.name ≠ nm)⟩

/-- Model of `df[nm]`: the first column named `nm`, if any. -/
def DataFrame.findCol (df : DataFrame) (nm : String) : Option Column :=
  df.cols.find? (fun c => c.name = nm)

/-- Model of `df.select_dtypes(include=ds)`: the columns whose dtype is in `ds`. -/
def DataFrame.selectDtypes (df : DataFrame) (ds : List Dtype) : List Column :=
  df.cols.filter (fun c => ds.contains c.dtype)

/-- Numeric value of a cell (`object` cells never feed numeric kernels). -/
def Value.toQ : Value → Q
  | .int i => Q.ofInt i
  | .rat q => q
  | .str _ => Q.ofInt 0

/-- The sub-list of `cells` at positions `idx` (out-of-range ↦ `.int 0`). -/
def cellsAt (cells : List Value) (idx : List Nat) : List Value :=
  idx.map (fun i => cells.getD i (.int 0))

/-- Row-indexing a DataFrame: keep names/dtypes, take rows at `idx`. -/
def DataFrame.rowsAt (df : DataFrame) (idx : List Nat) : DataFrame :=
  ⟨df.cols.map (fun c => ⟨c.name, c.dtype, cellsAt c.cells idx⟩)⟩

/-- Row `j` of a DataFrame, as the list of its cells across columns. -/
def DataFrame.row (df : DataFrame) (j : Nat) : List Value :=
  df.cols.map (fun c => c.cells.getD j (.int 0))

/-! ### The seeded shuffle (model of `random_state=42`) -/

/-- One step of a linear congruential generator (31-bit state). -/
def lcgNext (st : Nat) : Nat :=
  (st * 1103515245 + 12345) % 2 ^ 31

/-- Deterministic seeded selection shuffle: repeatedly pick the element at
position `st % length` and recurse on the list with (one occurrence of)
that element removed; the fuel (initially the length) makes the recursion
structural.  Models the seeded permutation that
`train_test_split(random_state=42)` applies to row indices. -/
def shuffleAux : Nat → Nat → List Nat → List Nat
  | 0, _, _ => []
  | _ + 1, _, [] => []
  | fuel + 1, st, a :: as =>
    let x := (a :: as).get ⟨st % (a :: as).length, Nat.mod_lt _ (Nat.succ_pos _)⟩
    x :: shuffleAux fuel (lcgNext st) ((a :: as).erase x)

/-- Shuffle a list of indices under a fixed seed. -/
def shuffle (seed : Nat) (l : List Nat) : List Nat :=
  shuffleAux l.length seed l

/-- The size `n_test = ceil(0.2 * n)`, as sklearn computes the test-partition size
for `test_size=0.2`. -/
def nTestOf (n : Nat) : Nat :=
  (n + 4) / 5

/-- Model of the plain (non-stratified) `train_test_split(test_size=0.2,
random_state=seed)` on `n` rows: shuffle `[0, …, n-1]`, the first
`n_test` indices are the test partition, the rest the train partition.
Returns `(train_indices, test_indices)`. -/
def plainSplit (seed n : Nat) : List Nat × List Nat :=
  let perm := shuffle seed (List.range n)
  let t := nTestOf n
  (perm.drop t, perm.take t)

/-- Per-class test-partition allocation for the stratified split: running
over the class sizes with cumulative count `cum`, class of size `m`
receives `⌊(cum+m)·t/n⌋ - ⌊cum·t/n⌋` test rows, so the total telescopes
to exactly `t`.  (The library distributes the fractional remainders by a
seeded draw; any deterministic allocation models it.) -/
def allocGo (t n : Nat) : Nat → List Nat → List Nat
  | _, [] => []
  | cum, m :: ms => ((cum + m) * t / n - cum * t / n) :: allocGo t n (cum + m) ms

/-- Model of the stratified `train_test_split(test_size=0.2,
random_state=seed, stratify=ys)` on `n` rows: group the indices by target
class, shuffle each group, allocate each group its proportional share of
the `n_test` rows, and concatenate.  Returns `(train_indices,
test_indices)`. -/
def stratSplit (seed n : Nat) (ys : List Value) : List Nat × List Nat :=
  let classes := ys.dedup
  let groups := classes.map (fun c => (List.range n).filter (fun i => ys.getD i (.int 0) = c))
  let t := nTestOf n
  let allocs := allocGo t n 0 (groups.map List.length)
  ((List.zipWith (fun g a => (shuffle seed g).drop a) groups allocs).flatten,
   (List.zipWith (fun g a => (shuffle seed g).take a) groups allocs).flatten)

/-! ### Label encoding (`sklearn.preprocessing.LabelEncoder`) -/

/-- The string payload of an `object` cell (numeric cells never occur in
`object`-typed columns of a well-formed frame). -/
def cellStr : Value → String
  | .str s => s
  | .int _ => ""
  | .rat _ => ""

/-- Model of `LabelEncoder.fit`: the sorted distinct observed categories
(`numpy.unique` sorts). -/
def classesOf (cells : List Value) : List String :=
  List.insertionSort (· ≤ ·) (cells.map cellStr).dedup

/-- Model of `LabelEncoder.transform` of one cell: its index among the classes. -/
def encodeCell (classes : List String) (v : Value) : Value :=
  .int (classes.indexOf (cellStr v))

/-- Model of `LabelEncoder.inverse_transform` of one code. -/
def decodeCell (classes : List String) : Value → String
  | .int i => classes.getD i.toNat ""
  | _ => ""

/-- Label-encode a column in place if it is `object`-typed
(`self.X[col] = le.fit_transform(self.X[col])`), else leave it alone. -/
def encodeColumn (c : Column) : Column :=
  if c.dtype = .tStr then
    ⟨c.name, .tInt, c.cells.map (encodeCell (classesOf c.cells))⟩
  else c

/-! ### Chi-squared scoring (`sklearn.feature_selection.chi2`) -/

/-- Sum of the feature values of `cells` over the rows whose target is
class `c`. -/
def classFeatureSum (ys cells : List Value) (c : Value) : Q :=
  ((List.zip cells ys).filter (fun p => p.2 = c)).foldr
    (fun p acc => Q.add p.1.toQ acc) (Q.ofInt 0)

/-- Chi-squared association score of one feature column against the
target: `Σ_classes (observed − expected)² / expected` with
`observed = Σ_{y=c} x` and `expected = (Σ x) · freq(c)`. -/
def chi2Score (ys cells : List Value) : Q :=
  let n : Q := Q.ofNat ys.length
  let total : Q := Q.listSum (cells.map Value.toQ)
  Q.listSum (ys.dedup.map (fun c =>
    let obs := classFeatureSum ys cells c
    let exp := Q.mul total (Q.div (Q.ofNat (ys.count c)) n)
    Q.div (Q.mul (Q.sub obs exp) (Q.sub obs exp)) exp))

/-- The `(feature name, chi2 score)` table the selector builds from the
numeric columns of the provisional training partition. -/
def chi2Table (Xtr : DataFrame) (ytr : List Value) : List (String × Q) :=
  (Xtr.selectDtypes [.tInt, .tFloat]).map (fun c => (c.name, chi2Score ytr c.cells))

/-- Descending-score comparison used by
`sort_values(by='Chi2_Scores', ascending=False)`. -/
def scoreDesc (p q : String × Q) : Prop :=
  Q.le q.2 p.2

instance : DecidableRel scoreDesc := fun p q =>
  inferInstanceAs (Decidable (Q.le q.2 p.2))

instance : IsTotal (String × Q) scoreDesc := ⟨fun p q => Q.le_total q.2 p.2⟩

instance : IsTrans (String × Q) scoreDesc :=
  ⟨fun _ _ _ h h' => Q.le_trans h' h⟩

/-- The score table sorted descending by score. -/
def rankedScores (Xtr : DataFrame) (ytr : List Value) : List (String × Q) :=
  List.insertionSort scoreDesc (chi2Table Xtr ytr)

/-! ### The pipeline state and stages -/

/-- The wrapped error every stage raises.
Modelled from the spec: the repository's `CustomException` class
(`src/custom_exception.py`, not part of the provided sources) is described
as "a wrapped exception carrying a human-readable message and the
originating cause". -/
structure CustomException where
  message : String
  cause : String
deriving DecidableEq, Repr, Inhabited

/-- The mutable fields of a `DataProcessing` object. -/
structure PState where
  df : Option DataFrame
  X : Option DataFrame
  y : Option Column
  label_encoder : List (String × List String)
  scaler : Option (List (Q × Q))
  selected_features : List String
deriving DecidableEq, Repr, Inhabited

/-- Field values set by `__init__`: no data loaded, empty encoder map,
an unfitted scaler, no selected features. -/
def initState : PState :=
  { df := none, X := none, y := none, label_encoder := [], scaler := none,
    selected_features := [] }

/-- Stage `load_data`: `pd.read_csv` either yields a table or fails with some
underlying exception (modelled by the `Except String` input); a failure is
wrapped into a `CustomException` and re-raised. -/
def load_data (s : PState) (input : Except String DataFrame) :
    Except CustomException PState :=
  match input with
  | .error e => .error ⟨"Failed to load data", e⟩
  | .ok df => .ok { s with df := some df }

/-- Stage `preprocess_data`: drop `Patient_ID` (KeyError if absent), split off
the `Survival_Prediction` target (KeyError if absent), label-encode every
`object`-typed feature column and retain one encoder per such column; any
failure is wrapped into a `CustomException`. -/
def preprocess_data (s : PState) : Except CustomException PState :=
  match s.df with
  | none => .error ⟨"Failed to process data", "no table loaded"⟩
  | some df =>
    if "Patient_ID" ∈ df.names then
      let df1 := df.dropCol "Patient_ID"
      if "Survival_Prediction" ∈ df1.names then
        match df1.findCol "Survival_Prediction" with
        | none => .error ⟨"Failed to process data", "KeyError: Survival_Prediction"⟩
        | some ycol =>
          let X0 := df1.dropCol "Survival_Prediction"
          let encs := (X0.cols.filter (fun c => c.dtype = .tStr)).map
            (fun c => (c.name, classesOf c.cells))
          .ok { s with df := some df1, X := some ⟨X0.cols.map encodeColumn⟩,
                       y := some ycol, label_encoder := s.label_encoder ++ encs }
      else .error ⟨"Failed to process data", "KeyError: Survival_Prediction"⟩
    else .error ⟨"Failed to process data", "KeyError: Patient_ID"⟩

/-- Stage `feature_selection`: provisional (non-stratified) split at seed 42,
chi-squared scores of the numeric columns on the provisional training
partition, rank descending, keep the top 5 names, and reduce `X` to those
columns in that order. -/
def feature_selection (s : PState) : Except CustomException PState :=
  match s.X, s.y with
  | some X, some ycol =>
    let (trainIdx, _) := plainSplit 42 X.nRows
    let Xtr := X.rowsAt trainIdx
    let ytr := cellsAt ycol.cells trainIdx
    let top := ((rankedScores Xtr ytr).take 5).map Prod.fst
    .ok { s with selected_features := top,
                 X := some ⟨top.filterMap X.findCol⟩ }
  | _, _ => .error ⟨"Failed to select features", "no feature table"⟩

/-- Per-column mean and (biased, `ddof=0`) variance, as
`StandardScaler.fit` computes them. -/
def meanVar (xs : List Q) : Q × Q :=
  let n : Q := Q.ofNat xs.length
  let m := Q.div (Q.listSum xs) n
  (m, Q.div (Q.listSum (xs.map (fun x => Q.mul (Q.sub x m) (Q.sub x m)))) n)

/-- The scaled representation of one cell: `(x - mean, var)`, standing for
`(x - mean)/sqrt(var)` (with the library's `var = 0 ↦ scale = 1`
convention folded into the pair representation). -/
def scaleCell (mv : Q × Q) (x : Q) : Q × Q :=
  (Q.sub x mv.1, mv.2)

/-- Model of `StandardScaler.fit` on the training rows of `X`: one `(mean, var)`
pair per column. -/
def fitScaler (X : DataFrame) (trainIdx : List Nat) : List (Q × Q) :=
  X.cols.map (fun c => meanVar ((cellsAt c.cells trainIdx).map Value.toQ))

/-- Model of `StandardScaler.transform` of the rows of `X` at `idx`: one scaled row
per index. -/
def transformRows (X : DataFrame) (params : List (Q × Q)) (idx : List Nat) :
    List (List (Q × Q)) :=
  idx.map (fun i =>
    List.zipWith (fun c mv => scaleCell mv (c.cells.getD i (.int 0)).toQ) X.cols params)

/-- The four arrays `split_and_scale` returns. -/
structure Outputs where
  X_train : List (List (Q × Q))
  X_test : List (List (Q × Q))
  y_train : List Value
  y_test : List Value
deriving DecidableEq, Repr, Inhabited

/-- Stage `split_and_scale`: final stratified split at seed 42, fit the scaler
on the training partition only, transform both partitions, return the four
arrays (targets are the raw values at the split indices). -/
def split_and_scale (s : PState) : Except CustomException (PState × Outputs) :=
  match s.X, s.y with
  | some X, some ycol =>
    let (trainIdx, testIdx) := stratSplit 42 X.nRows ycol.cells
    let params := fitScaler X trainIdx
    .ok ({ s with scaler := some params },
         { X_train := transformRows X params trainIdx,
           X_test := transformRows X params testIdx,
           y_train := cellsAt ycol.cells trainIdx,
           y_test := cellsAt ycol.cells testIdx })
  | _, _ => .error ⟨"Failed to split and scale data", "no feature table"⟩

/-! ### The filesystem and `save_data_and_scaler` -/

/-- A serialized artifact (`joblib.dump` payload). -/
inductive Blob
  | mat (m : List (List (Q × Q)))
  | vec (v : List Value)
  | scal (p : List (Q × Q))
deriving DecidableEq, Repr, Inhabited

/-- The observable filesystem: known directories, files as an
insert-or-replace association list, and a writability flag for the output
directory. -/
structure FS where
  dirs : List String
  files : List (String × Blob)
  writable : Bool
deriving DecidableEq, Repr, Inhabited

/-- Model of `os.path.join(dir, name)`. -/
def pathJoin (d f : String) : String :=
  d ++ "/" ++ f

/-- Write (insert or overwrite) one file. -/
def FS.setFile (fs : FS) (p : String) (b : Blob) : FS :=
  { fs with files := (p, b) :: fs.files.filter (fun pr => pr.1 ≠ p) }

/-- Read one file. -/
def FS.readFile (fs : FS) (p : String) : Option Blob :=
  (fs.files.find? (fun pr => pr.1 = p)).map Prod.snd

/-- Model of `os.makedirs(output_path, exist_ok=True)` from `__init__`. -/
def FS.mkOutputDir (fs : FS) (d : String) : FS :=
  { fs with dirs := if d ∈ fs.dirs then fs.dirs else d :: fs.dirs }

/-- Stage `save_data_and_scaler`: dump the four arrays and the scaler to the
five fixed paths under `output_path`; an unwritable directory raises a
wrapped save error.  The object state is returned alongside: the method
assigns no field, so it comes back untouched either way. -/
def save_data_and_scaler (s : PState) (o : Outputs) (output_path : String)
    (fs : FS) : PState × Except CustomException FS :=
  if fs.writable then
    (s, .ok (((((fs.setFile (pathJoin output_path "X_train.pkl") (.mat o.X_train)).setFile
      (pathJoin output_path "X_test.pkl") (.mat o.X_test)).setFile
      (pathJoin output_path "y_train.pkl") (.vec o.y_train)).setFile
      (pathJoin output_path "y_test.pkl") (.vec o.y_test)).setFile
      (pathJoin output_path "scaler.pkl") (.scal (s.scaler.getD []))))
  else (s, .error ⟨"Failed to save data", "output directory not writable"⟩)

/-- Stage `run`, together with `__init__`'s directory creation: sequence the
five stages; the first failure aborts the rest and leaves the filesystem
as it was after directory creation. -/
def runPipeline (input : Except String DataFrame) (output_path : String)
    (fs0 : FS) : Except CustomException (PState × Outputs) × FS :=
  let fs := fs0.mkOutputDir output_path
  match load_data initState input with
  | .error e => (.error e, fs)
  | .ok s1 =>
    match preprocess_data s1 with
    | .error e => (.error e, fs)
    | .ok s2 =>
      match feature_selection s2 with
      | .error e => (.error e, fs)
      | .ok s3 =>
        match split_and_scale s3 with
        | .error e => (.error e, fs)
        | .ok (s4, out) =>
          match save_data_and_scaler s4 out output_path fs with
          | (_, .error e) => (.error e, fs)
          | (s5, .ok fs') => (.ok (s5, out), fs')

/-! ### Basic lemmas about the shuffle and the splits -/

theorem shuffleAux_perm : ∀ (fuel st : Nat) (l : List Nat), l.length ≤ fuel →
    shuffleAux fuel st l ~ l := by
  intro fuel
  induction fuel with
  | zero =>
    intro st l hl
    have : l = [] := List.eq_nil_of_length_eq_zero (Nat.le_zero.mp hl)
    subst this
    rfl
  | succ fuel ih =>
    intro st l hl
    cases l with
    | nil => rfl
    | cons a as =>
      rw [shuffleAux]
      have hx : (a :: as).get ⟨st % (a :: as).length, Nat.mod_lt _ (Nat.succ_pos _)⟩ ∈ a :: as :=
        List.get_mem _ _ _
      have hle : ((a :: as).erase ((a :: as).get ⟨st % (a :: as).length, Nat.mod_lt _ (Nat.succ_pos _)⟩)).length ≤ fuel := by
        rw [List.length_erase_of_mem hx]
        simp only [List.length_cons] at hl ⊢
        omega
      exact ((ih (lcgNext st) _ hle).cons _).trans (List.perm_cons_erase hx).symm

theorem shuffle_perm (seed : Nat) (l : List Nat) : shuffle seed l ~ l :=
  shuffleAux_perm l.length seed l le_rfl

theorem shuffle_length (seed : Nat) (l : List Nat) :
    (shuffle seed l).length = l.length :=
  (shuffle_perm seed l).length_eq

/-- A `find?` ignores a `filter` whose predicate is implied by the search
predicate. -/
theorem find?_filter_imp (l : List α) (p q : α → Bool)
    (h : ∀ a, p a = true → q a = true) : (l.filter q).find? p = l.find? p := by
  induction l with
  | nil => rfl
  | cons a l ih =>
    by_cases hq : q a = true
    · rw [List.filter_cons_of_pos hq]
      by_cases hp : p a = true
      · rw [List.find?_cons_of_pos _ hp, List.find?_cons_of_pos _ hp]
      · rw [List.find?_cons_of_neg _ (by simpa using hp),
          List.find?_cons_of_neg _ (by simpa using hp), ih]
    · have hp : ¬ p a = true := fun hpa => hq (h a hpa)
      rw [List.filter_cons_of_neg (by simpa using hq),
        List.find?_cons_of_neg _ (by simpa using hp), ih]

/-- Grouping a list by distinct class representatives and flattening is a
permutation of the list. -/
theorem filter_groups_perm (cs : List Value) (f : Nat → Value) :
    ∀ l : List Nat, cs.Nodup → (∀ i ∈ l, f i ∈ cs) →
      (cs.map (fun c => l.filter (fun i => f i = c))).flatten ~ l := by
  induction cs with
  | nil =>
    intro l _ hcov
    cases l with
    | nil => simp
    | cons a l => exact absurd (hcov a (by simp)) (by simp)
  | cons c cs ih =>
    intro l hnd hcov
    have hrest : ∀ c' ∈ cs,
        l.filter (fun i => f i = c') =
          (l.filter (fun i => ¬ f i = c)).filter (fun i => f i = c') := by
      intro c' hc'
      have hne : c' ≠ c := fun h => (List.nodup_cons.mp hnd).1 (h ▸ hc')
      rw [List.filter_comm]
      refine (List.filter_eq_self.mpr ?_).symm
      intro i hi
      have hfi : f i = c' := by simpa using List.of_mem_filter hi
      simp [hfi, hne]
    have hmap : cs.map (fun c' => l.filter (fun i => f i = c')) =
        cs.map (fun c' => (l.filter (fun i => ¬ f i = c)).filter (fun i => f i = c')) :=
      List.map_congr_left hrest
    have hihm : (cs.map (fun c' => (l.filter (fun i => ¬ f i = c)).filter
        (fun i => f i = c'))).flatten ~ l.filter (fun i => ¬ f i = c) := by
      refine ih _ (List.nodup_cons.mp hnd).2 ?_
      intro i hi
      have hi' := List.of_mem_filter hi
      have := hcov i (List.mem_of_mem_filter hi)
      simp only [List.mem_cons] at this
      rcases this with h | h
      · exact absurd h (by simpa using hi')
      · exact h
    calc ((c :: cs).map (fun c' => l.filter (fun i => f i = c'))).flatten
        = l.filter (fun i => f i = c) ++
            (cs.map (fun c' => l.filter (fun i => f i = c'))).flatten := by simp
      _ ~ l.filter (fun i => f i = c) ++ l.filter (fun i => ¬ f i = c) := by
          rw [hmap]; exact List.Perm.append_left _ hihm
      _ ~ l := by
          simpa using List.filter_append_perm (fun i => decide (f i = c)) l

/-- Flattening a list of pairwise-permuted lists preserves permutation. -/
theorem flatten_map_perm (f : List Nat → List Nat) (h : ∀ g, f g ~ g) :
    ∀ gs : List (List Nat), (gs.map f).flatten ~ gs.flatten := by
  intro gs
  induction gs with
  | nil => simp
  | cons g gs ih => simpa using (h g).append ih

/-- Interchange of two flattened `zipWith`s with a common spine. -/
theorem flatten_zipWith_append_perm (f g : List Nat → Nat → List Nat) :
    ∀ (gs : List (List Nat)) (as : List Nat),
      (List.zipWith f gs as).flatten ++ (List.zipWith g gs as).flatten ~
        (List.zipWith (fun x a => f x a ++ g x a) gs as).flatten := by
  intro gs
  induction gs with
  | nil => intro as; simp
  | cons x gs ih =>
    intro as
    cases as with
    | nil => simp
    | cons a as =>
      simp only [List.zipWith_cons_cons, List.flatten_cons, List.append_assoc]
      refine List.Perm.append_left _ ?_
      calc (List.zipWith f gs as).flatten ++ (g x a ++ (List.zipWith g gs as).flatten)
          ~ g x a ++ ((List.zipWith f gs as).flatten ++ (List.zipWith g gs as).flatten) := by
            simpa [List.append_assoc] using
              (@List.perm_append_comm _ ((List.zipWith f gs as).flatten)
                (g x a)).append_right ((List.zipWith g gs as).flatten)
        _ ~ g x a ++ (List.zipWith (fun x a => f x a ++ g x a) gs as).flatten :=
            List.Perm.append_left _ (ih as)

theorem nTestOf_le (n : Nat) : nTestOf n ≤ n := by
  simp only [nTestOf]; omega

theorem allocGo_length (t n : Nat) : ∀ (ms : List Nat) (cum : Nat),
    (allocGo t n cum ms).length = ms.length := by
  intro ms
  induction ms with
  | nil => intro cum; rfl
  | cons m ms ih => intro cum; simp [allocGo, ih]

theorem div_cast_mono {a b t n : Nat} (h : a ≤ b) : a * t / n ≤ b * t / n :=
  Nat.div_le_div_right (Nat.mul_le_mul_right t h)

theorem alloc_le {t n : Nat} (ht : t ≤ n) (cum m : Nat) :
    (cum + m) * t / n - cum * t / n ≤ m := by
  rcases Nat.eq_zero_or_pos n with hn | hn
  · subst hn
    have : t = 0 := Nat.le_zero.mp ht
    simp [this]
  · have h1 : (cum + m) * t ≤ cum * t + m * n := by
      have := Nat.mul_le_mul_left m ht
      calc (cum + m) * t = cum * t + m * t := by ring
        _ ≤ cum * t + m * n := by omega
    have h2 : (cum + m) * t / n ≤ (cum * t + m * n) / n := Nat.div_le_div_right h1
    have h3 : (cum * t + m * n) / n = cum * t / n + m := Nat.add_mul_div_right _ m hn
    omega

theorem take_flatten_len (s t n : Nat) (ht : t ≤ n) :
    ∀ (gs : List (List Nat)) (cum : Nat),
      ((List.zipWith (fun g a => (shuffle s g).take a) gs
          (allocGo t n cum (gs.map List.length))).flatten).length =
        (cum + (gs.map List.length).sum) * t / n - cum * t / n := by
  intro gs
  induction gs with
  | nil => intro cum; simp
  | cons g gs ih =>
    intro cum
    have hle : (cum + g.length) * t / n - cum * t / n ≤ g.length := alloc_le ht _ _
    have hmono1 : cum * t / n ≤ (cum + g.length) * t / n :=
      div_cast_mono (Nat.le_add_right _ _)
    have hmono2 : (cum + g.length) * t / n ≤
        (cum + g.length + (gs.map List.length).sum) * t / n :=
      div_cast_mono (Nat.le_add_right _ _)
    simp only [List.map_cons, allocGo, List.zipWith_cons_cons, List.flatten_cons,
      List.length_append, List.length_take, shuffle_length, List.sum_cons,
      ih (cum + g.length)]
    rw [Nat.min_eq_left hle, ← Nat.add_assoc]
    omega

theorem zipWith_flatten_perm (h : List Nat → Nat → List Nat)
    (hp : ∀ g a, h g a ~ g) :
    ∀ (gs : List (List Nat)) (as : List Nat), gs.length = as.length →
      (List.zipWith h gs as).flatten ~ gs.flatten := by
  intro gs
  induction gs with
  | nil => intro as _; simp
  | cons g gs ih =>
    intro as hlen
    cases as with
    | nil => simp at hlen
    | cons a as =>
      simp only [List.zipWith_cons_cons, List.flatten_cons]
      exact (hp g a).append (ih as (by simpa using hlen))

/-- Every index below `n` lands in one of the dedup-classes groups. -/
theorem strat_coverage {n : Nat} {ys : List Value} (h : ys.length = n) :
    ∀ i ∈ List.range n, ys.getD i (.int 0) ∈ ys.dedup := by
  intro i hi
  have hlt : i < ys.length := h ▸ List.mem_range.mp hi
  rw [List.getD_eq_getElem ys (.int 0) hlt]
  exact List.mem_dedup.mpr (List.getElem_mem hlt)

/-- The grouped indices of the stratified split are a permutation of
`[0, …, n-1]`. -/
theorem strat_groups_perm {n : Nat} {ys : List Value} (h : ys.length = n) :
    ((ys.dedup.map (fun c =>
      (List.range n).filter (fun i => ys.getD i (.int 0) = c))).flatten) ~
        List.range n :=
  filter_groups_perm ys.dedup _ (List.range n) (List.nodup_dedup ys)
    (strat_coverage h)

/-- The test partition of the stratified split has exactly
`n_test = ⌈0.2·n⌉` rows. -/
theorem stratSplit_test_length (seed n : Nat) (ys : List Value)
    (h : ys.length = n) : (stratSplit seed n ys).2.length = nTestOf n := by
  rcases Nat.eq_zero_or_pos n with hn | hn
  · subst hn
    have : ys = [] := List.eq_nil_of_length_eq_zero h
    subst this
    simp [stratSplit, nTestOf, allocGo]
  · have hsum : ((ys.dedup.map (fun c =>
        (List.range n).filter (fun i => ys.getD i (.int 0) = c))).map
          List.length).sum = n := by
      have := (strat_groups_perm h).length_eq
      rw [List.length_flatten] at this
      simpa [List.map_map] using this
    simp only [stratSplit]
    rw [take_flatten_len seed (nTestOf n) n (nTestOf_le n) _ 0]
    rw [hsum]
    simp [Nat.mul_div_cancel_left _ hn, Nat.mul_comm]

/-- Train and test partitions of the stratified split together permute
`[0, …, n-1]`. -/
theorem stratSplit_perm (seed n : Nat) (ys : List Value) (h : ys.length = n) :
    (stratSplit seed n ys).1 ++ (stratSplit seed n ys).2 ~ List.range n := by
  simp only [stratSplit]
  refine ((flatten_zipWith_append_perm _ _ _ _).trans ?_)
  have hlen : (ys.dedup.map (fun c =>
      (List.range n).filter (fun i => ys.getD i (.int 0) = c))).length =
      (allocGo (nTestOf n) n 0 ((ys.dedup.map (fun c =>
        (List.range n).filter (fun i => ys.getD i (.int 0) = c))).map
          List.length)).length := by
    rw [allocGo_length]
    simp
  refine (zipWith_flatten_perm _ ?_ _ _ hlen).trans (strat_groups_perm h)
  intro g a
  calc (shuffle seed g).drop a ++ (shuffle seed g).take a
      ~ (shuffle seed g).take a ++ (shuffle seed g).drop a := List.perm_append_comm
    _ = shuffle seed g := List.take_append_drop a _
    _ ~ g := shuffle_perm seed g

/-- The train partition of the stratified split has the remaining
`n - n_test` rows. -/
theorem stratSplit_train_length (seed n : Nat) (ys : List Value)
    (h : ys.length = n) : (stratSplit seed n ys).1.length = n - nTestOf n := by
  have hp := (stratSplit_perm seed n ys h).length_eq
  rw [List.length_append, List.length_range] at hp
  have := stratSplit_test_length seed n ys h
  omega

/-- Reading every position of a list in order reproduces the list. -/
theorem map_getD_range (l : List Value) :
    (List.range l.length).map (fun i => l.getD i (.int 0)) = l := by
  induction l with
  | nil => simp
  | cons a xs ih =>
    rw [List.length_cons, List.range_succ_eq_map]
    simp only [List.map_cons, List.getD_cons_zero, List.map_map]
    congr 1

/-- The map `cellsAt` distributes over index concatenation. -/
theorem cellsAt_append (cells : List Value) (i1 i2 : List Nat) :
    cellsAt cells (i1 ++ i2) = cellsAt cells i1 ++ cellsAt cells i2 :=
  List.map_append _ _ _

/-- Taking cells along a permutation of all positions permutes the list. -/
theorem cellsAt_perm_of_perm {cells : List Value} {idx : List Nat}
    (h : idx ~ List.range cells.length) : cellsAt cells idx ~ cells := by
  have := h.map (fun i => cells.getD i (.int 0))
  rw [map_getD_range] at this
  exact this

/-! ### Filesystem lemmas -/

theorem string_append_cancel (s a b : String) (h : s ++ a = s ++ b) : a = b := by
  have hd : s.data ++ a.data = s.data ++ b.data := by
    have := congrArg String.data h
    simpa [String.data_append] using this
  have hab : a.data = b.data := List.append_cancel_left hd
  cases a
  cases b
  exact congrArg String.mk hab

theorem pathJoin_ne (d : String) {a b : String} (h : a ≠ b) :
    pathJoin d a ≠ pathJoin d b := by
  intro hab
  exact h (string_append_cancel (d ++ "/") a b (by simpa [pathJoin, String.append_assoc] using hab))

theorem readFile_setFile_same (fs : FS) (p : String) (b : Blob) :
    (fs.setFile p b).readFile p = some b := by
  simp [FS.readFile, FS.setFile, List.find?_cons_of_pos]

theorem readFile_setFile_other (fs : FS) (p p' : String) (b : Blob)
    (h : p' ≠ p) : (fs.setFile p b).readFile p' = fs.readFile p' := by
  simp only [FS.readFile, FS.setFile]
  rw [List.find?_cons_of_neg _ (by simpa using fun hh : p = p' => h hh.symm)]
  rw [find?_filter_imp _ _ _ ?_]
  intro pr hpr
  have : pr.1 = p' := by simpa using hpr
  simp [this, h]

theorem dirs_setFile (fs : FS) (p : String) (b : Blob) :
    (fs.setFile p b).dirs = fs.dirs := rfl

/-! ### Concrete sample data used by the witnesses -/

/-- A 10-row input table with an identifier column, two integer features,
one categorical feature, and a string-typed binary target. -/
def sampleTable : DataFrame :=
  ⟨[⟨"Patient_ID", .tInt, (List.range 10).map (fun i => .int i)⟩,
    ⟨"f1", .tInt, ([1, 2, 3, 4, 5, 6, 7, 8, 9, 10] : List Int).map Value.int⟩,
    ⟨"f2", .tInt, ([10, 9, 8, 7, 6, 5, 4, 3, 2, 1] : List Int).map Value.int⟩,
    ⟨"Gender", .tStr,
      ["M", "F", "M", "F", "M", "F", "M", "F", "M", "F"].map Value.str⟩,
    ⟨"Survival_Prediction", .tStr,
      ["yes", "no", "yes", "no", "yes", "no", "yes", "no", "yes", "no"].map Value.str⟩]⟩

/-- An empty, writable filesystem. -/
def sampleFS : FS := ⟨[], [], true⟩

/-- One full pipeline execution on the sample table. -/
def sampleRun : Except CustomException (PState × Outputs) × FS :=
  runPipeline (.ok sampleTable) "artifacts/processed" sampleFS

/-- The object state the sample run ends in. -/
def sampleSt : PState :=
  match sampleRun.1 with
  | .ok p => p.1
  | .error _ => default

/-- The four arrays the sample run returns. -/
def sampleOut : Outputs :=
  match sampleRun.1 with
  | .ok p => p.2
  | .error _ => default

/-- The filesystem the sample run ends in. -/
def sampleFS' : FS := sampleRun.2

theorem sampleRun_ok : sampleRun = (.ok (sampleSt, sampleOut), sampleFS') := by
  rfl

/-! ### Claim C1 — determinism of the pipeline -/

/-- Claim C1: for a fixed input table and the fixed seed 42, two
executions of the full pipeline produce identical selected-feature lists
and identical scaled train/test feature matrices and target vectors. -/
theorem run_deterministic (inp : Except String DataFrame) (op : String)
    (fs : FS) (s1 s2 : PState) (o1 o2 : Outputs) (f1 f2 : FS)
    (h1 : runPipeline inp op fs = (.ok (s1, o1), f1))
    (h2 : runPipeline inp op fs = (.ok (s2, o2), f2)) :
    s1.selected_features = s2.selected_features ∧ o1.X_train = o2.X_train ∧
      o1.X_test = o2.X_test ∧ o1.y_train = o2.y_train ∧ o1.y_test = o2.y_test := by
  rw [h1] at h2
  injection h2 with h2a h2b
  injection h2a with h2c
  injection h2c with h2d h2e
  subst h2d
  subst h2e
  exact ⟨rfl, rfl, rfl, rfl, rfl⟩

/-- Witness for C1: the sample run succeeds, and applying the theorem to
it twice yields the stated equalities. -/
theorem run_deterministic_witness :
    runPipeline (.ok sampleTable) "artifacts/processed" sampleFS =
        (.ok (sampleSt, sampleOut), sampleFS') ∧
      sampleSt.selected_features = sampleSt.selected_features ∧
        sampleOut.X_train = sampleOut.X_train ∧
        sampleOut.X_test = sampleOut.X_test ∧
        sampleOut.y_train = sampleOut.y_train ∧
        sampleOut.y_test = sampleOut.y_test :=
  ⟨sampleRun_ok,
    run_deterministic (.ok sampleTable) "artifacts/processed" sampleFS
      sampleSt sampleSt sampleOut sampleOut sampleFS' sampleFS'
      sampleRun_ok sampleRun_ok⟩

/-! ### Claim C7 — load errors are wrapped; any failure aborts the rest -/

/-- Claim C7: a failing read is wrapped into a data-load error carrying
the originating cause; a pipeline whose load fails returns exactly that
error; and whenever any stage fails, the pipeline writes nothing — the
filesystem is what `__init__`'s directory creation left (no later stage
runs). -/
theorem load_error_wraps_and_any_failure_aborts :
    (∀ (m : String) (s : PState),
        load_data s (.error m) = .error ⟨"Failed to load data", m⟩)
    ∧ (∀ (m : String) (op : String) (fs : FS),
        runPipeline (.error m) op fs =
          (.error ⟨"Failed to load data", m⟩, fs.mkOutputDir op))
    ∧ (∀ (inp : Except String DataFrame) (op : String) (fs : FS)
        (e : CustomException), (runPipeline inp op fs).1 = .error e →
          (runPipeline inp op fs).2 = fs.mkOutputDir op) := by
  refine ⟨fun m s => rfl, fun m op fs => rfl, ?_⟩
  intro inp op fs e h
  cases hld : load_data initState inp with
  | error e1 => simp [runPipeline, hld]
  | ok s1 =>
    cases hpp : preprocess_data s1 with
    | error e2 => simp [runPipeline, hld, hpp]
    | ok s2 =>
      cases hfs : feature_selection s2 with
      | error e3 => simp [runPipeline, hld, hpp, hfs]
      | ok s3 =>
        cases hss : split_and_scale s3 with
        | error e4 => simp [runPipeline, hld, hpp, hfs, hss]
        | ok p =>
          cases hsv : save_data_and_scaler p.1 p.2 op (fs.mkOutputDir op) with
          | mk s5 r =>
            cases r with
            | error e5 => simp [runPipeline, hld, hpp, hfs, hss, hsv]
            | ok fs' => simp [runPipeline, hld, hpp, hfs, hss, hsv] at h

/-- Witness for C7: a concrete failing read and a concrete table missing
its identifier column both abort the pipeline with the filesystem
untouched beyond directory creation. -/
theorem load_error_wraps_and_any_failure_aborts_witness :
    load_data initState (.error "FileNotFoundError") =
        .error ⟨"Failed to load data", "FileNotFoundError"⟩ ∧
      runPipeline (.error "FileNotFoundError") "artifacts/processed" sampleFS =
        (.error ⟨"Failed to load data", "FileNotFoundError"⟩,
          sampleFS.mkOutputDir "artifacts/processed") ∧
      (runPipeline (.ok ⟨[⟨"Survival_Prediction", .tStr, [.str "yes"]⟩]⟩)
          "artifacts/processed" sampleFS).1 =
        .error ⟨"Failed to process data", "KeyError: Patient_ID"⟩ ∧
      (runPipeline (.ok ⟨[⟨"Survival_Prediction", .tStr, [.str "yes"]⟩]⟩)
          "artifacts/processed" sampleFS).2 =
        sampleFS.mkOutputDir "artifacts/processed" :=
  ⟨load_error_wraps_and_any_failure_aborts.1 "FileNotFoundError" initState,
    load_error_wraps_and_any_failure_aborts.2.1 "FileNotFoundError"
      "artifacts/processed" sampleFS,
    rfl,
    load_error_wraps_and_any_failure_aborts.2.2
      (.ok ⟨[⟨"Survival_Prediction", .tStr, [.str "yes"]⟩]⟩)
      "artifacts/processed" sampleFS
      ⟨"Failed to process data", "KeyError: Patient_ID"⟩ rfl⟩

/-! ### Claim C8 — a failed save leaves in-memory state unchanged -/

/-- Claim C8: if `save_data_and_scaler` fails, it raises a save error and
returns the object state exactly as it was: `df`, `X`, `y`,
`selected_features`, `label_encoder` and the fitted scaler are unchanged
(the four arrays are passed by value and not returned modified at all). -/
theorem save_failure_preserves_state (s : PState) (o : Outputs) (op : String)
    (fs : FS) (e : CustomException)
    (h : (save_data_and_scaler s o op fs).2 = .error e) :
    (save_data_and_scaler s o op fs).1 = s
    ∧ (save_data_and_scaler s o op fs).1.df = s.df
    ∧ (save_data_and_scaler s o op fs).1.X = s.X
    ∧ (save_data_and_scaler s o op fs).1.y = s.y
    ∧ (save_data_and_scaler s o op fs).1.selected_features = s.selected_features
    ∧ (save_data_and_scaler s o op fs).1.label_encoder = s.label_encoder
    ∧ (save_data_and_scaler s o op fs).1.scaler = s.scaler
    ∧ e.message = "Failed to save data" := by
  by_cases hw : fs.writable = true
  · simp [save_data_and_scaler, hw] at h
  · have hmsg : e.message = "Failed to save data" := by
      simp only [save_data_and_scaler, hw, if_false, Bool.false_eq_true] at h
      cases h
      rfl
    simp [save_data_and_scaler, hw, hmsg]

/-- Witness for C8: saving onto an unwritable filesystem fails while the
state comes back untouched. -/
theorem save_failure_preserves_state_witness :
    (save_data_and_scaler initState default "artifacts/processed"
        ⟨["artifacts/processed"], [], false⟩).2 =
      .error ⟨"Failed to save data", "output directory not writable"⟩ ∧
    (save_data_and_scaler initState default "artifacts/processed"
        ⟨["artifacts/processed"], [], false⟩).1 = initState :=
  ⟨rfl,
    (save_failure_preserves_state initState default "artifacts/processed"
      ⟨["artifacts/processed"], [], false⟩
      ⟨"Failed to save data", "output directory not writable"⟩ rfl).1⟩

/-! ### Claim C6 — missing identifier or target column raises -/

/-- Decidable check that a preprocessing call raised the wrapped
processing error. -/
def raisesProcessError (r : Except CustomException PState) : Bool :=
  match r with
  | .error e => e.message == "Failed to process data"
  | .ok _ => false

theorem mem_names_dropCol (df : DataFrame) (nm nm' : String) (hne : nm ≠ nm') :
    nm ∈ (df.dropCol nm').names ↔ nm ∈ df.names := by
  simp only [DataFrame.names, DataFrame.dropCol, List.mem_map, List.mem_filter]
  constructor
  · rintro ⟨c, ⟨hc, _⟩, hnm⟩
    exact ⟨c, hc, hnm⟩
  · rintro ⟨c, hc, hnm⟩
    exact ⟨c, ⟨hc, by simp [hnm, hne]⟩, hnm⟩

/-- Claim C6: when the loaded table lacks the identifier column
`Patient_ID` or the target column `Survival_Prediction`,
`preprocess_data` raises a wrapped processing error; it never silently
skips the drop or the extraction. -/
theorem missing_columns_raise_process_error (s : PState) (df : DataFrame)
    (hdf : s.df = some df)
    (h : "Patient_ID" ∉ df.names ∨ "Survival_Prediction" ∉ df.names) :
    raisesProcessError (preprocess_data s) = true := by
  simp only [preprocess_data, hdf]
  by_cases hp : "Patient_ID" ∈ df.names
  · rcases h with h | h
    · exact absurd hp h
    · rw [if_pos hp, if_neg ?_]
      · simp [raisesProcessError]
      · rw [mem_names_dropCol df _ _ (by decide)]
        exact h
  · rw [if_neg hp]
    simp [raisesProcessError]

/-- Witness for C6: a table with a target but no identifier column, and a
table with an identifier but no target column, both raise. -/
theorem missing_columns_raise_process_error_witness :
    ({ initState with
        df := some ⟨[⟨"Survival_Prediction", .tStr, [.str "yes"]⟩]⟩ } : PState).df =
      some ⟨[⟨"Survival_Prediction", .tStr, [.str "yes"]⟩]⟩
    ∧ ("Patient_ID" ∉ (⟨[⟨"Survival_Prediction", .tStr, [.str "yes"]⟩]⟩ :
        DataFrame).names ∨ "Survival_Prediction" ∉ (⟨[⟨"Survival_Prediction",
          .tStr, [.str "yes"]⟩]⟩ : DataFrame).names)
    ∧ raisesProcessError (preprocess_data { initState with
        df := some ⟨[⟨"Survival_Prediction", .tStr, [.str "yes"]⟩]⟩ }) = true
    ∧ raisesProcessError (preprocess_data { initState with
        df := some ⟨[⟨"Patient_ID", .tInt, [.int 1]⟩]⟩ }) = true :=
  ⟨rfl, by decide,
    missing_columns_raise_process_error _ _ rfl (by decide),
    missing_columns_raise_process_error _
      ⟨[⟨"Patient_ID", .tInt, [.int 1]⟩]⟩ rfl (by decide)⟩

/-! ### Inversion of a successful pipeline run -/

theorem save_fst (s : PState) (o : Outputs) (op : String) (fs : FS) :
    (save_data_and_scaler s o op fs).1 = s := by
  by_cases hw : fs.writable = true <;> simp [save_data_and_scaler, hw]

theorem runPipeline_ok_inv (inp : Except String DataFrame) (op : String)
    (fs0 : FS) (st : PState) (out : Outputs) (fs' : FS)
    (h : runPipeline inp op fs0 = (.ok (st, out), fs')) :
    ∃ s1 s2 s3, load_data initState inp = .ok s1
      ∧ preprocess_data s1 = .ok s2
      ∧ feature_selection s2 = .ok s3
      ∧ split_and_scale s3 = .ok (st, out)
      ∧ save_data_and_scaler st out op (fs0.mkOutputDir op) = (st, .ok fs') := by
  cases hld : load_data initState inp with
  | error e1 => simp [runPipeline, hld] at h
  | ok s1 =>
    cases hpp : preprocess_data s1 with
    | error e2 => simp [runPipeline, hld, hpp] at h
    | ok s2 =>
      cases hfs : feature_selection s2 with
      | error e3 => simp [runPipeline, hld, hpp, hfs] at h
      | ok s3 =>
        cases hss : split_and_scale s3 with
        | error e4 => simp [runPipeline, hld, hpp, hfs, hss] at h
        | ok p =>
          obtain ⟨s4, o4⟩ := p
          have hsv1 : (save_data_and_scaler s4 o4 op (fs0.mkOutputDir op)).1 = s4 :=
            save_fst _ _ _ _
          cases hsv : save_data_and_scaler s4 o4 op (fs0.mkOutputDir op) with
          | mk s5 r =>
            have hs5 : s5 = s4 := by rw [hsv] at hsv1; exact hsv1
            subst hs5
            cases r with
            | error e5 => simp [runPipeline, hld, hpp, hfs, hss, hsv] at h
            | ok fsr =>
              simp only [runPipeline, hld, hpp, hfs, hss, hsv] at h
              injection h with ha hb
              injection ha with hc
              injection hc with hstq houtq
              subst hstq
              subst houtq
              subst hb
              exact ⟨s1, s2, s3, rfl, hpp, hfs, hss, hsv⟩

/-! ### Claim C9 — five artifacts at fixed distinct paths -/

/-- The five fixed artifact paths under an output directory. -/
def artifactPaths (op : String) : List String :=
  [pathJoin op "X_train.pkl", pathJoin op "X_test.pkl",
   pathJoin op "y_train.pkl", pathJoin op "y_test.pkl",
   pathJoin op "scaler.pkl"]

/-- Claim C9: after every successful run the output directory (created if
absent) holds the five artifacts — train/test features, train/test
targets, fitted scaler — each at its fixed path; the five paths are
pairwise distinct; every other path is untouched, so a re-run overwrites
exactly the prior artifacts; and the output directory exists afterwards
(it is recorded by `__init__` on every run, successful or not). -/
theorem run_writes_exactly_five_artifacts :
    (∀ (inp : Except String DataFrame) (op : String) (fs0 : FS) (st : PState)
        (out : Outputs) (fs' : FS), runPipeline inp op fs0 = (.ok (st, out), fs') →
        fs'.readFile (pathJoin op "X_train.pkl") = some (.mat out.X_train)
        ∧ fs'.readFile (pathJoin op "X_test.pkl") = some (.mat out.X_test)
        ∧ fs'.readFile (pathJoin op "y_train.pkl") = some (.vec out.y_train)
        ∧ fs'.readFile (pathJoin op "y_test.pkl") = some (.vec out.y_test)
        ∧ fs'.readFile (pathJoin op "scaler.pkl") =
            some (.scal (st.scaler.getD []))
        ∧ (∀ p, p ∉ artifactPaths op →
            fs'.readFile p = (fs0.mkOutputDir op).readFile p)
        ∧ op ∈ fs'.dirs)
    ∧ (∀ op, (artifactPaths op).Nodup)
    ∧ (∀ (inp : Except String DataFrame) (op : String) (fs0 : FS),
        op ∈ ((runPipeline inp op fs0).2).dirs) := by
  refine ⟨?_, ?_, ?_⟩
  · intro inp op fs0 st out fs' h
    obtain ⟨s1, s2, s3, _, _, _, _, hsv⟩ := runPipeline_ok_inv inp op fs0 st out fs' h
    by_cases hw : (fs0.mkOutputDir op).writable = true
    · simp only [save_data_and_scaler, hw, if_true] at hsv
      injection hsv with hsva hsvb
      injection hsvb with hsvc
      subst hsvc
      have d1 : pathJoin op "X_train.pkl" ≠ pathJoin op "X_test.pkl" :=
        pathJoin_ne op (by decide)
      have d2 : pathJoin op "X_train.pkl" ≠ pathJoin op "y_train.pkl" :=
        pathJoin_ne op (by decide)
      have d3 : pathJoin op "X_train.pkl" ≠ pathJoin op "y_test.pkl" :=
        pathJoin_ne op (by decide)
      have d4 : pathJoin op "X_train.pkl" ≠ pathJoin op "scaler.pkl" :=
        pathJoin_ne op (by decide)
      have d5 : pathJoin op "X_test.pkl" ≠ pathJoin op "y_train.pkl" :=
        pathJoin_ne op (by decide)
      have d6 : pathJoin op "X_test.pkl" ≠ pathJoin op "y_test.pkl" :=
        pathJoin_ne op (by decide)
      have d7 : pathJoin op "X_test.pkl" ≠ pathJoin op "scaler.pkl" :=
        pathJoin_ne op (by decide)
      have d8 : pathJoin op "y_train.pkl" ≠ pathJoin op "y_test.pkl" :=
        pathJoin_ne op (by decide)
      have d9 : pathJoin op "y_train.pkl" ≠ pathJoin op "scaler.pkl" :=
        pathJoin_ne op (by decide)
      have d10 : pathJoin op "y_test.pkl" ≠ pathJoin op "scaler.pkl" :=
        pathJoin_ne op (by decide)
      refine ⟨?_, ?_, ?_, ?_, ?_, ?_, ?_⟩
      · rw [readFile_setFile_other _ _ _ _ d4,
          readFile_setFile_other _ _ _ _ d3,
          readFile_setFile_other _ _ _ _ d2,
          readFile_setFile_other _ _ _ _ d1,
          readFile_setFile_same]
      · rw [readFile_setFile_other _ _ _ _ d7,
          readFile_setFile_other _ _ _ _ d6,
          readFile_setFile_other _ _ _ _ d5,
          readFile_setFile_same]
      · rw [readFile_setFile_other _ _ _ _ d9,
          readFile_setFile_other _ _ _ _ d8,
          readFile_setFile_same]
      · rw [readFile_setFile_other _ _ _ _ d10, readFile_setFile_same]
      · rw [readFile_setFile_same]
      · intro p hp
        simp only [artifactPaths, List.mem_cons, List.not_mem_nil, or_false,
          not_or] at hp
        obtain ⟨n1, n2, n3, n4, n5⟩ := hp
        rw [readFile_setFile_other _ _ _ _ n5,
          readFile_setFile_other _ _ _ _ n4,
          readFile_setFile_other _ _ _ _ n3,
          readFile_setFile_other _ _ _ _ n2,
          readFile_setFile_other _ _ _ _ n1]
      · simp [dirs_setFile, FS.mkOutputDir]
        split <;> simp_all [FS.mkOutputDir]
    · simp only [save_data_and_scaler, hw, if_false] at hsv
      exact absurd (congrArg Prod.snd hsv) (by simp)
  · intro op
    have k : ∀ a b : String, a ≠ b → pathJoin op a ≠ pathJoin op b :=
      fun a b h => pathJoin_ne op h
    simp only [artifactPaths, List.nodup_cons, List.mem_cons,
      List.not_mem_nil, or_false, not_or, List.nodup_nil, and_true,
      not_false_eq_true]
    repeat' apply And.intro
    all_goals exact k _ _ (by decide)
  · intro inp op fs0
    have hdir : op ∈ (fs0.mkOutputDir op).dirs := by
      simp only [FS.mkOutputDir]
      split
      · assumption
      · simp
    cases hld : load_data initState inp with
    | error e1 => simpa [runPipeline, hld] using hdir
    | ok s1 =>
      cases hpp : preprocess_data s1 with
      | error e2 => simpa [runPipeline, hld, hpp] using hdir
      | ok s2 =>
        cases hfs : feature_selection s2 with
        | error e3 => simpa [runPipeline, hld, hpp, hfs] using hdir
        | ok s3 =>
          cases hss : split_and_scale s3 with
          | error e4 => simpa [runPipeline, hld, hpp, hfs, hss] using hdir
          | ok p =>
            cases hsv : save_data_and_scaler p.1 p.2 op (fs0.mkOutputDir op) with
            | mk s5 r =>
              cases r with
              | error e5 => simpa [runPipeline, hld, hpp, hfs, hss, hsv] using hdir
              | ok fsr =>
                have : fsr.dirs = (fs0.mkOutputDir op).dirs := by
                  by_cases hw : (fs0.mkOutputDir op).writable = true
                  · simp only [save_data_and_scaler, hw, if_true] at hsv
                    have h2 := congrArg Prod.snd hsv
                    simp only at h2
                    rw [← Except.ok.inj h2]
                    rfl
                  · simp [save_data_and_scaler, hw] at hsv
                simpa [runPipeline, hld, hpp, hfs, hss, hsv, this] using hdir

/-- Witness for C9: the sample run materialises all five artifacts. -/
theorem run_writes_exactly_five_artifacts_witness :
    runPipeline (.ok sampleTable) "artifacts/processed" sampleFS =
        (.ok (sampleSt, sampleOut), sampleFS') ∧
      sampleFS'.readFile (pathJoin "artifacts/processed" "X_train.pkl") =
          some (.mat sampleOut.X_train) ∧
      sampleFS'.readFile (pathJoin "artifacts/processed" "scaler.pkl") =
          some (.scal (sampleSt.scaler.getD [])) ∧
      (artifactPaths "artifacts/processed").Nodup :=
  ⟨sampleRun_ok,
    (run_writes_exactly_five_artifacts.1 (.ok sampleTable) "artifacts/processed"
      sampleFS sampleSt sampleOut sampleFS' sampleRun_ok).1,
    (run_writes_exactly_five_artifacts.1 (.ok sampleTable) "artifacts/processed"
      sampleFS sampleSt sampleOut sampleFS' sampleRun_ok).2.2.2.2.1,
    run_writes_exactly_five_artifacts.2.1 "artifacts/processed"⟩

/-! ### Claim C5 — label encoding is a per-column bijection with inverse -/

/-- The raw feature table `preprocess_data` encodes: the loaded table
without the identifier and target columns. -/
def featureTableOf (df : DataFrame) : DataFrame :=
  (df.dropCol "Patient_ID").dropCol "Survival_Prediction"

theorem mem_classesOf {cells : List Value} {x : String}
    (h : x ∈ cells.map cellStr) : x ∈ classesOf cells :=
  (List.perm_insertionSort _ _).mem_iff.mpr (List.mem_dedup.mpr h)

/-- Inversion of a successful `preprocess_data` call. -/
theorem preprocess_ok_inv (s : PState) (df : DataFrame) (s' : PState)
    (hdf : s.df = some df) (h : preprocess_data s = .ok s') :
    ∃ ycol, (df.dropCol "Patient_ID").findCol "Survival_Prediction" = some ycol
      ∧ s' = { s with df := some (df.dropCol "Patient_ID"),
                      X := some ⟨(featureTableOf df).cols.map encodeColumn⟩,
                      y := some ycol,
                      label_encoder := s.label_encoder ++
                        ((featureTableOf df).cols.filter
                          (fun c => c.dtype = .tStr)).map
                            (fun c => (c.name, classesOf c.cells)) } := by
  simp only [preprocess_data, hdf] at h
  by_cases hp : "Patient_ID" ∈ df.names
  · rw [if_pos hp] at h
    by_cases hs : "Survival_Prediction" ∈ (df.dropCol "Patient_ID").names
    · rw [if_pos hs] at h
      cases hy : (df.dropCol "Patient_ID").findCol "Survival_Prediction" with
      | none => rw [hy] at h; cases h
      | some ycol =>
        rw [hy] at h
        refine ⟨ycol, rfl, ?_⟩
        have := Except.ok.inj h
        rw [← this]
        rfl
    · rw [if_neg hs] at h; cases h
  · rw [if_neg hp] at h; cases h

/-- Claim C5: `preprocess_data` replaces each `object`-typed feature
column by integer codes through a bijection from its observed categories
onto `{0, …, k-1}`, retains exactly one encoder per categorical column,
and the retained encoder's inverse transform recovers the original
column values. -/
theorem label_encoding_bijective_with_inverse (s : PState) (df : DataFrame)
    (s' : PState) (hdf : s.df = some df) (hinit : s.label_encoder = [])
    (h : preprocess_data s = .ok s') :
    s'.label_encoder.map Prod.fst =
        ((featureTableOf df).cols.filter (fun c => c.dtype = .tStr)).map (·.name)
    ∧ s'.X = some ⟨(featureTableOf df).cols.map encodeColumn⟩
    ∧ (∀ c ∈ (featureTableOf df).cols, c.dtype = .tStr →
        (c.name, classesOf c.cells) ∈ s'.label_encoder
        ∧ (∀ v ∈ c.cells,
            decodeCell (classesOf c.cells) (encodeCell (classesOf c.cells) v) =
              cellStr v)
        ∧ (∀ u w, u ∈ c.cells.map cellStr → w ∈ c.cells.map cellStr →
            encodeCell (classesOf c.cells) (.str u) =
              encodeCell (classesOf c.cells) (.str w) → u = w)) := by
  obtain ⟨ycol, hy, hs'⟩ := preprocess_ok_inv s df s' hdf h
  subst hs'
  refine ⟨?_, rfl, ?_⟩
  · simp [hinit, List.map_map, Function.comp]
  · intro c hc hstr
    refine ⟨?_, ?_, ?_⟩
    · simp only [hinit, List.nil_append, List.mem_map]
      exact ⟨c, List.mem_filter.mpr ⟨hc, by simp [hstr]⟩, rfl⟩
    · intro v hv
      have hmem : cellStr v ∈ classesOf c.cells :=
        mem_classesOf (List.mem_map_of_mem cellStr hv)
      have hlt : (classesOf c.cells).indexOf (cellStr v) <
          (classesOf c.cells).length := List.indexOf_lt_length.mpr hmem
      simp only [encodeCell, decodeCell, Int.toNat_ofNat]
      rw [List.getD_eq_getElem _ _ hlt, List.getElem_indexOf hlt]
    · intro u w hu hw huw
      have hu' : u ∈ classesOf c.cells := mem_classesOf hu
      have hw' : w ∈ classesOf c.cells := mem_classesOf hw
      simp only [encodeCell, cellStr, Value.int.injEq, Int.ofNat_inj] at huw
      exact (List.indexOf_inj hu' hw').mp huw

/-- The result of preprocessing the sample table. -/
def samplePre : Except CustomException PState :=
  preprocess_data { initState with df := some sampleTable }

/-- The state preprocessing the sample table ends in. -/
def samplePreSt : PState :=
  match samplePre with
  | .ok p => p
  | .error _ => default

/-- Witness for C5: preprocessing the sample table encodes its `Gender`
column bijectively and invertibly. -/
theorem label_encoding_bijective_with_inverse_witness :
    preprocess_data { initState with df := some sampleTable } = .ok samplePreSt
    ∧ (samplePreSt.label_encoder.map Prod.fst =
        ((featureTableOf sampleTable).cols.filter
          (fun c => c.dtype = .tStr)).map (·.name)
      ∧ samplePreSt.X =
          some ⟨(featureTableOf sampleTable).cols.map encodeColumn⟩
      ∧ (∀ c ∈ (featureTableOf sampleTable).cols, c.dtype = .tStr →
          (c.name, classesOf c.cells) ∈ samplePreSt.label_encoder
          ∧ (∀ v ∈ c.cells,
              decodeCell (classesOf c.cells) (encodeCell (classesOf c.cells) v) =
                cellStr v)
          ∧ (∀ u w, u ∈ c.cells.map cellStr → w ∈ c.cells.map cellStr →
              encodeCell (classesOf c.cells) (.str u) =
                encodeCell (classesOf c.cells) (.str w) → u = w))) :=
  ⟨rfl, label_encoding_bijective_with_inverse
    { initState with df := some sampleTable } sampleTable samplePreSt
    rfl rfl rfl⟩

/-! ### Claim C3 — top-5 feature selection -/

/-- The provisional training indices the selector uses (seed 42). -/
def provTrainIdx (X : DataFrame) : List Nat :=
  (plainSplit 42 X.nRows).1

/-- The score ranking the selector builds on the provisional training
partition. -/
def rankingOf (X : DataFrame) (yc : Column) : List (String × Q) :=
  rankedScores (X.rowsAt (provTrainIdx X)) (cellsAt yc.cells (provTrainIdx X))

/-- The selected feature names: top five of the ranking. -/
def topFeaturesOf (X : DataFrame) (yc : Column) : List String :=
  ((rankingOf X yc).take 5).map Prod.fst

/-- With a feature table and target in place, `feature_selection` always
succeeds and produces exactly the top-5 reduction. -/
theorem feature_selection_eq (s : PState) (X : DataFrame) (yc : Column)
    (hX : s.X = some X) (hy : s.y = some yc) :
    feature_selection s = .ok { s with
      selected_features := topFeaturesOf X yc,
      X := some ⟨(topFeaturesOf X yc).filterMap X.findCol⟩ } := by
  simp only [feature_selection, hX, hy, topFeaturesOf, rankingOf, provTrainIdx]

theorem names_rowsAt (X : DataFrame) (idx : List Nat) :
    (X.rowsAt idx).names = X.names := by
  simp [DataFrame.rowsAt, DataFrame.names, List.map_map, Function.comp]

theorem selectDtypes_rowsAt (X : DataFrame) (idx : List Nat) (ds : List Dtype) :
    (X.rowsAt idx).selectDtypes ds =
      (X.selectDtypes ds).map (fun c => ⟨c.name, c.dtype, cellsAt c.cells idx⟩) := by
  simp only [DataFrame.rowsAt, DataFrame.selectDtypes, List.filter_map]
  congr 1

theorem mem_chi2Table_name (Xtr : DataFrame) (ytr : List Value)
    (p : String × Q) (hp : p ∈ chi2Table Xtr ytr) : p.1 ∈ Xtr.names := by
  simp only [chi2Table, List.mem_map] at hp
  obtain ⟨c, hc, hpc⟩ := hp
  have hmem : c ∈ Xtr.cols := List.mem_of_mem_filter hc
  simp only [DataFrame.names, List.mem_map]
  exact ⟨c, hmem, by rw [← hpc]⟩

theorem findCol_of_mem_names (X : DataFrame) (nm : String)
    (h : nm ∈ X.names) : ∃ c, X.findCol nm = some c ∧ c.name = nm := by
  have hex : ∃ c ∈ X.cols, (fun c : Column => decide (c.name = nm)) c = true := by
    obtain ⟨c, hc, hnm⟩ := List.mem_map.mp h
    exact ⟨c, hc, by simp [hnm]⟩
  have hs := List.find?_isSome.mpr hex
  obtain ⟨c, hc⟩ := Option.isSome_iff_exists.mp hs
  exact ⟨c, hc, by simpa using List.find?_some hc⟩

theorem names_filterMap_findCol (X : DataFrame) (ns : List String)
    (h : ∀ nm ∈ ns, nm ∈ X.names) :
    (⟨ns.filterMap X.findCol⟩ : DataFrame).names = ns := by
  induction ns with
  | nil => rfl
  | cons nm ns ih =>
    obtain ⟨c, hc, hcn⟩ := findCol_of_mem_names X nm (h nm (by simp))
    have ihh := ih (fun x hx => h x (by simp [hx]))
    simp only [DataFrame.names, List.filterMap_cons, hc, List.map_cons]
    simp only [DataFrame.names] at ihh
    rw [hcn, ihh]

theorem topFeaturesOf_subset_names (X : DataFrame) (yc : Column) :
    ∀ nm ∈ topFeaturesOf X yc, nm ∈ X.names := by
  intro nm hnm
  simp only [topFeaturesOf, List.mem_map] at hnm
  obtain ⟨p, hp, hpn⟩ := hnm
  have hrk : p ∈ rankingOf X yc := List.mem_of_mem_take hp
  have htab : p ∈ chi2Table (X.rowsAt (provTrainIdx X))
      (cellsAt yc.cells (provTrainIdx X)) :=
    (List.perm_insertionSort scoreDesc _).mem_iff.mp hrk
  have := mem_chi2Table_name _ _ p htab
  rw [names_rowsAt] at this
  rw [← hpn]
  exact this

/-- Claim C3: after `feature_selection` the number of selected features
(and of retained columns of `X`) is `min 5 (number of numeric feature
columns)`; the selected features are the top of the descending-score
ranking: their scores are pairwise descending and dominate every
unselected feature's score. -/
theorem top5_selected (s : PState) (X : DataFrame) (yc : Column) (s' : PState)
    (hX : s.X = some X) (hy : s.y = some yc)
    (h : feature_selection s = .ok s') :
    s'.selected_features = topFeaturesOf X yc
    ∧ s'.selected_features.length =
        min 5 (X.selectDtypes [.tInt, .tFloat]).length
    ∧ (∃ X', s'.X = some X' ∧ X'.names = s'.selected_features)
    ∧ (((rankingOf X yc).take 5).map Prod.snd).Sorted (fun a b => Q.le b a)
    ∧ (∀ p ∈ (rankingOf X yc).take 5, ∀ q ∈ (rankingOf X yc).drop 5,
        Q.le q.2 p.2) := by
  rw [feature_selection_eq s X yc hX hy] at h
  have hs' := (Except.ok.inj h).symm
  subst hs'
  have hsorted : (rankingOf X yc).Sorted scoreDesc :=
    List.sorted_insertionSort scoreDesc _
  refine ⟨rfl, ?_, ?_, ?_, ?_⟩
  · have hlen : (rankingOf X yc).length =
        (X.selectDtypes [.tInt, .tFloat]).length := by
      have h1 : (rankingOf X yc).length = (chi2Table (X.rowsAt (provTrainIdx X))
          (cellsAt yc.cells (provTrainIdx X))).length :=
        (List.perm_insertionSort scoreDesc _).length_eq
      rw [h1]
      simp [chi2Table, selectDtypes_rowsAt]
    simp [topFeaturesOf, hlen, Nat.min_comm]
  · exact ⟨_, rfl, names_filterMap_findCol X _ (topFeaturesOf_subset_names X yc)⟩
  · have htake : ((rankingOf X yc).take 5).Sorted scoreDesc :=
      hsorted.sublist (List.take_sublist 5 _)
    exact (List.pairwise_map).mpr htake
  · have hsplit : (rankingOf X yc).take 5 ++ (rankingOf X yc).drop 5 =
        rankingOf X yc := List.take_append_drop 5 _
    have := hsorted
    rw [← hsplit] at this
    exact fun p hp q hq => (List.pairwise_append.mp this).2.2 p hp q hq

/-- The result of feature selection after preprocessing the sample table. -/
def sampleSel : Except CustomException PState :=
  feature_selection samplePreSt

/-- The state feature selection on the sample table ends in. -/
def sampleSelSt : PState :=
  match sampleSel with
  | .ok p => p
  | .error _ => default

/-- The feature table preprocessing the sample table produces. -/
def samplePreX : DataFrame :=
  match samplePreSt.X with
  | some X => X
  | none => default

/-- The target column preprocessing the sample table produces. -/
def samplePreY : Column :=
  match samplePreSt.y with
  | some yc => yc
  | none => default

/-- Witness for C3: on the sample table the selector keeps
`min 5 3 = 3` features, ranked descending. -/
theorem top5_selected_witness :
    samplePreSt.X = some samplePreX ∧ samplePreSt.y = some samplePreY ∧
    feature_selection samplePreSt = .ok sampleSelSt ∧
    (sampleSelSt.selected_features = topFeaturesOf samplePreX samplePreY
      ∧ sampleSelSt.selected_features.length =
          min 5 (samplePreX.selectDtypes [.tInt, .tFloat]).length
      ∧ (∃ X', sampleSelSt.X = some X' ∧
          X'.names = sampleSelSt.selected_features)
      ∧ (((rankingOf samplePreX samplePreY).take 5).map Prod.snd).Sorted
          (fun a b => Q.le b a)
      ∧ (∀ p ∈ (rankingOf samplePreX samplePreY).take 5,
          ∀ q ∈ (rankingOf samplePreX samplePreY).drop 5, Q.le q.2 p.2)) :=
  ⟨rfl, rfl, rfl,
    top5_selected samplePreSt samplePreX samplePreY sampleSelSt rfl rfl rfl⟩

/-! ### Claim C2 — what feature scoring and scaler fitting may observe -/

/-- The selected-feature list of a selection result, if it succeeded. -/
def selOfResult (r : Except CustomException PState) : Option (List String) :=
  match r with
  | .ok s => some s.selected_features
  | .error _ => none

/-- The fitted scaler of a split/scale result, if it succeeded. -/
def scalerOfResult (r : Except CustomException (PState × Outputs)) :
    Option (List (Q × Q)) :=
  match r with
  | .ok p => p.1.scaler
  | .error _ => none

/-- The final training indices of the stratified split (seed 42). -/
def finalTrainIdx (X : DataFrame) (yc : Column) : List Nat :=
  (stratSplit 42 X.nRows yc.cells).1

/-- The final test indices of the stratified split (seed 42). -/
def finalTestIdx (X : DataFrame) (yc : Column) : List Nat :=
  (stratSplit 42 X.nRows yc.cells).2

/-- With a feature table and target in place, `split_and_scale` always
succeeds, fitting the scaler on the final training rows only and
transforming both partitions. -/
theorem split_and_scale_eq (s : PState) (X : DataFrame) (yc : Column)
    (hX : s.X = some X) (hy : s.y = some yc) :
    split_and_scale s = .ok
      ({ s with scaler := some (fitScaler X (finalTrainIdx X yc)) },
       { X_train := transformRows X (fitScaler X (finalTrainIdx X yc))
           (finalTrainIdx X yc),
         X_test := transformRows X (fitScaler X (finalTrainIdx X yc))
           (finalTestIdx X yc),
         y_train := cellsAt yc.cells (finalTrainIdx X yc),
         y_test := cellsAt yc.cells (finalTestIdx X yc) }) := by
  simp only [split_and_scale, hX, hy, finalTrainIdx, finalTestIdx]

/-- The fit `fitScaler` reads nothing but the training-row view of the table. -/
theorem fitScaler_eq_rowsAt (X : DataFrame) (idx : List Nat) :
    fitScaler X idx =
      (X.rowsAt idx).cols.map (fun c => meanVar (c.cells.map Value.toQ)) := by
  simp [fitScaler, DataFrame.rowsAt, List.map_map, Function.comp]

/-- Claim C2 (amended): chi-squared scores are a function of the
provisional training partition's rows and targets alone, and the fitted
scaler is a function of the final training partition's rows alone (the
test partition is only transformed) — so persisted-test rows cannot
influence scaler statistics, though (see the counterexample) they can
influence feature ranking via the provisional split. -/
theorem scores_and_scaler_fit_on_training_only :
    (∀ (s1 s2 : PState) (X1 X2 : DataFrame) (y1 y2 : Column),
      s1.X = some X1 → s2.X = some X2 → s1.y = some y1 → s2.y = some y2 →
      X1.nRows = X2.nRows →
      X1.rowsAt (provTrainIdx X1) = X2.rowsAt (provTrainIdx X2) →
      cellsAt y1.cells (provTrainIdx X1) = cellsAt y2.cells (provTrainIdx X2) →
      selOfResult (feature_selection s1) = selOfResult (feature_selection s2)
      ∧ selOfResult (feature_selection s1) = some (topFeaturesOf X1 y1))
    ∧ (∀ (s1 s2 : PState) (X1 X2 : DataFrame) (y1 y2 : Column),
      s1.X = some X1 → s2.X = some X2 → s1.y = some y1 → s2.y = some y2 →
      X1.nRows = X2.nRows → y1.cells = y2.cells →
      X1.rowsAt (finalTrainIdx X1 y1) = X2.rowsAt (finalTrainIdx X2 y2) →
      scalerOfResult (split_and_scale s1) = scalerOfResult (split_and_scale s2)
      ∧ scalerOfResult (split_and_scale s1) =
          some (fitScaler X1 (finalTrainIdx X1 y1))) := by
  constructor
  · intro s1 s2 X1 X2 y1 y2 hX1 hX2 hy1 hy2 hn hrows hys
    rw [feature_selection_eq s1 X1 y1 hX1 hy1,
      feature_selection_eq s2 X2 y2 hX2 hy2]
    have hidx : provTrainIdx X1 = provTrainIdx X2 := by
      simp [provTrainIdx, plainSplit, hn]
    refine ⟨?_, rfl⟩
    simp only [selOfResult]
    have : topFeaturesOf X1 y1 = topFeaturesOf X2 y2 := by
      simp only [topFeaturesOf, rankingOf, rankedScores, chi2Table]
      rw [hidx] at hrows hys
      rw [hidx, hrows, hys]
    simp [this]
  · intro s1 s2 X1 X2 y1 y2 hX1 hX2 hy1 hy2 hn hyc hrows
    rw [split_and_scale_eq s1 X1 y1 hX1 hy1, split_and_scale_eq s2 X2 y2 hX2 hy2]
    have hidx : finalTrainIdx X1 y1 = finalTrainIdx X2 y2 := by
      simp [finalTrainIdx, stratSplit, hn, hyc]
    refine ⟨?_, rfl⟩
    simp only [scalerOfResult]
    rw [fitScaler_eq_rowsAt, fitScaler_eq_rowsAt, hrows, ← hidx]

/-- A two-feature table on which the selector keeps both features in
order `[f2, f1]`. -/
def cT2a : DataFrame :=
  ⟨[⟨"Patient_ID", .tInt, (List.range 10).map (fun i => .int i)⟩,
    ⟨"f1", .tInt, ([1, 2, 3, 4, 5, 6, 7, 8, 9, 10] : List Int).map Value.int⟩,
    ⟨"f2", .tInt, ([10, 9, 8, 7, 6, 5, 4, 3, 2, 1] : List Int).map Value.int⟩,
    ⟨"Survival_Prediction", .tStr,
      ["yes", "no", "yes", "no", "yes", "no", "yes", "no", "yes", "no"].map
        Value.str⟩]⟩

/-- The same table with only the `f1` entry of row 4 changed — a row of
the final (persisted) test partition. -/
def cT2b : DataFrame :=
  ⟨[⟨"Patient_ID", .tInt, (List.range 10).map (fun i => .int i)⟩,
    ⟨"f1", .tInt, ([1, 2, 3, 4, 100, 6, 7, 8, 9, 10] : List Int).map Value.int⟩,
    ⟨"f2", .tInt, ([10, 9, 8, 7, 6, 5, 4, 3, 2, 1] : List Int).map Value.int⟩,
    ⟨"Survival_Prediction", .tStr,
      ["yes", "no", "yes", "no", "yes", "no", "yes", "no", "yes", "no"].map
        Value.str⟩]⟩

/-- The shared target cells of `cT2a`/`cT2b`. -/
def cY2 : List Value :=
  ["yes", "no", "yes", "no", "yes", "no", "yes", "no", "yes", "no"].map
    Value.str

/-- The run of the pipeline on `cT2a`. -/
def cRun2a : Except CustomException (PState × Outputs) × FS :=
  runPipeline (.ok cT2a) "artifacts/processed" sampleFS

/-- The run of the pipeline on `cT2b`. -/
def cRun2b : Except CustomException (PState × Outputs) × FS :=
  runPipeline (.ok cT2b) "artifacts/processed" sampleFS

/-- The end state of the run on `cT2a`. -/
def cSt2a : PState :=
  match cRun2a.1 with
  | .ok p => p.1
  | .error _ => default

/-- The end state of the run on `cT2b`. -/
def cSt2b : PState :=
  match cRun2b.1 with
  | .ok p => p.1
  | .error _ => default

/-- The outputs of the run on `cT2a`. -/
def cOut2a : Outputs :=
  match cRun2a.1 with
  | .ok p => p.2
  | .error _ => default

/-- Counterexample to C2 as stated: `cT2a` and `cT2b` differ only in row
4; row 4 belongs to the final stratified test partition — the partition
whose targets are persisted as `y_test` — yet the two runs select their
features in a different order, because the provisional (unstratified)
scoring split places row 4 in its training partition.  So a row of the
persisted test set does influence feature ranking. -/
theorem persisted_test_row_influences_ranking :
    (∀ j, j < 10 → j ≠ 4 → cT2a.row j = cT2b.row j)
    ∧ cT2a.names = cT2b.names
    ∧ cT2a.nRows = 10 ∧ cT2b.nRows = 10
    ∧ 4 ∈ (stratSplit 42 10 cY2).2
    ∧ cOut2a.y_test = cellsAt cY2 (stratSplit 42 10 cY2).2
    ∧ 4 ∈ (plainSplit 42 10).1
    ∧ cSt2a.selected_features = ["f2", "f1"]
    ∧ cSt2b.selected_features = ["f1", "f2"]
    ∧ cSt2a.selected_features ≠ cSt2b.selected_features := by
  refine ⟨?_, rfl, rfl, rfl, ?_, ?_, ?_, ?_, ?_, ?_⟩
  · decide
  · decide
  · decide
  · decide
  · decide
  · decide
  · decide

/-- A bare two-feature table (already preprocessed shape) for the C2
witness. -/
def wX2a : DataFrame :=
  ⟨[⟨"f1", .tInt, ([1, 2, 3, 4, 5, 6, 7, 8, 9, 10] : List Int).map Value.int⟩,
    ⟨"f2", .tInt, ([10, 9, 8, 7, 6, 5, 4, 3, 2, 1] : List Int).map Value.int⟩]⟩

/-- Table `wX2a` changed only at row 2 — a provisional-test row. -/
def wX2b : DataFrame :=
  ⟨[⟨"f1", .tInt, ([1, 2, 999, 4, 5, 6, 7, 8, 9, 10] : List Int).map Value.int⟩,
    ⟨"f2", .tInt, ([10, 9, 8, 7, 6, 5, 4, 3, 2, 1] : List Int).map Value.int⟩]⟩

/-- Table `wX2a` changed only at row 4 — a final-test row. -/
def wX2c : DataFrame :=
  ⟨[⟨"f1", .tInt, ([1, 2, 3, 4, 777, 6, 7, 8, 9, 10] : List Int).map Value.int⟩,
    ⟨"f2", .tInt, ([10, 9, 8, 7, 6, 5, 4, 3, 2, 1] : List Int).map Value.int⟩]⟩

/-- The target column for the C2 witness states. -/
def wY2 : Column := ⟨"Survival_Prediction", .tStr, cY2⟩

/-- Witness for C2 (amended): states agreeing on the provisional training
rows select identical features even though they differ on a
provisional-test row, and states agreeing on the final training rows fit
identical scalers even though they differ on a final-test row. -/
theorem scores_and_scaler_fit_on_training_only_witness :
    wX2a.rowsAt (provTrainIdx wX2a) = wX2b.rowsAt (provTrainIdx wX2b)
    ∧ wX2a ≠ wX2b
    ∧ selOfResult (feature_selection { initState with X := some wX2a, y := some wY2 }) =
        selOfResult (feature_selection { initState with X := some wX2b, y := some wY2 })
    ∧ wX2a.rowsAt (finalTrainIdx wX2a wY2) = wX2c.rowsAt (finalTrainIdx wX2c wY2)
    ∧ wX2a ≠ wX2c
    ∧ scalerOfResult (split_and_scale { initState with X := some wX2a, y := some wY2 }) =
        scalerOfResult (split_and_scale { initState with X := some wX2c, y := some wY2 }) :=
  ⟨by decide, by decide,
    (scores_and_scaler_fit_on_training_only.1
      { initState with X := some wX2a, y := some wY2 }
      { initState with X := some wX2b, y := some wY2 }
      wX2a wX2b wY2 wY2 rfl rfl rfl rfl rfl (by decide) (by decide)).1,
    by decide, by decide,
    (scores_and_scaler_fit_on_training_only.2
      { initState with X := some wX2a, y := some wY2 }
      { initState with X := some wX2c, y := some wY2 }
      wX2a wX2c wY2 wY2 rfl rfl rfl rfl rfl rfl (by decide)).1⟩

/-! ### Claim C4 — shapes of the final split -/

theorem transformRows_length (X : DataFrame) (params : List (Q × Q))
    (idx : List Nat) : (transformRows X params idx).length = idx.length :=
  List.length_map _ _

theorem fitScaler_length (X : DataFrame) (idx : List Nat) :
    (fitScaler X idx).length = X.cols.length :=
  List.length_map _ _

theorem transformRows_width (X : DataFrame) (params : List (Q × Q))
    (idx : List Nat) (hp : params.length = X.cols.length) :
    ∀ r ∈ transformRows X params idx, r.length = X.cols.length := by
  intro r hr
  obtain ⟨i, _, hri⟩ := List.mem_map.mp hr
  rw [← hri, List.length_zipWith, hp, Nat.min_self]

/-- Claim C4 (amended): the final split is the single stratified
seed-42 split; the test features get `⌈0.2·n⌉` rows (sklearn takes the
ceiling of the test share — not `round(0.2·n)`) and the train features
the remaining `n - ⌈0.2·n⌉`, matching the target vectors; every row has
one entry per retained column, and after selection at most 5 columns are
retained; 1000 rows give 800/200. -/
theorem split_and_scale_shapes :
    (∀ (s : PState) (X : DataFrame) (yc : Column) (s' : PState)
        (out : Outputs), s.X = some X → s.y = some yc →
        yc.cells.length = X.nRows → split_and_scale s = .ok (s', out) →
        out.X_test.length = nTestOf X.nRows
        ∧ out.X_train.length = X.nRows - nTestOf X.nRows
        ∧ out.y_test.length = nTestOf X.nRows
        ∧ out.y_train.length = X.nRows - nTestOf X.nRows
        ∧ (∀ r ∈ out.X_train, r.length = X.cols.length)
        ∧ (∀ r ∈ out.X_test, r.length = X.cols.length))
    ∧ (∀ (s : PState) (X : DataFrame) (yc : Column) (s' : PState)
        (X' : DataFrame), s.X = some X → s.y = some yc →
        feature_selection s = .ok s' → s'.X = some X' → X'.cols.length ≤ 5)
    ∧ nTestOf 1000 = 200 ∧ 1000 - nTestOf 1000 = 800 := by
  refine ⟨?_, ?_, by decide, by decide⟩
  · intro s X yc s' out hX hy hlen h
    rw [split_and_scale_eq s X yc hX hy] at h
    have hout := congrArg Prod.snd (Except.ok.inj h)
    simp only at hout
    subst hout
    have htest : (stratSplit 42 X.nRows yc.cells).2.length = nTestOf X.nRows :=
      stratSplit_test_length 42 X.nRows yc.cells hlen
    have htrain : (stratSplit 42 X.nRows yc.cells).1.length =
        X.nRows - nTestOf X.nRows :=
      stratSplit_train_length 42 X.nRows yc.cells hlen
    refine ⟨?_, ?_, ?_, ?_, ?_, ?_⟩
    · rw [transformRows_length]; exact htest
    · rw [transformRows_length]; exact htrain
    · simpa [cellsAt] using htest
    · simpa [cellsAt] using htrain
    · exact transformRows_width X _ _ (fitScaler_length X _)
    · exact transformRows_width X _ _ (fitScaler_length X _)
  · intro s X yc s' X' hX hy h hX'
    rw [feature_selection_eq s X yc hX hy] at h
    have hs' := (Except.ok.inj h).symm
    subst hs'
    simp only [Option.some.injEq] at hX'
    subst hX'
    calc ((topFeaturesOf X yc).filterMap X.findCol).length
        ≤ (topFeaturesOf X yc).length := List.length_filterMap_le _ _
      _ ≤ 5 := by
          simp only [topFeaturesOf, List.length_map, List.length_take]
          omega

/-- The state used by the C4 witness (the C2 witness table). -/
def wS4 : PState := { initState with X := some wX2a, y := some wY2 }

/-- The split/scale result on `wS4`. -/
def wSS4 : Except CustomException (PState × Outputs) := split_and_scale wS4

/-- Its end state. -/
def wSS4St : PState :=
  match wSS4 with
  | .ok p => p.1
  | .error _ => default

/-- Its outputs. -/
def wSS4Out : Outputs :=
  match wSS4 with
  | .ok p => p.2
  | .error _ => default

/-- Witness for C4 (amended): the 10-row witness table splits into 8
train / 2 test rows of width 2. -/
theorem split_and_scale_shapes_witness :
    split_and_scale wS4 = .ok (wSS4St, wSS4Out)
    ∧ wY2.cells.length = wX2a.nRows
    ∧ (wSS4Out.X_test.length = nTestOf wX2a.nRows
      ∧ wSS4Out.X_train.length = wX2a.nRows - nTestOf wX2a.nRows
      ∧ wSS4Out.y_test.length = nTestOf wX2a.nRows
      ∧ wSS4Out.y_train.length = wX2a.nRows - nTestOf wX2a.nRows
      ∧ (∀ r ∈ wSS4Out.X_train, r.length = wX2a.cols.length)
      ∧ (∀ r ∈ wSS4Out.X_test, r.length = wX2a.cols.length))
    ∧ nTestOf 1000 = 200 :=
  ⟨rfl, rfl,
    split_and_scale_shapes.1 wS4 wX2a wY2 wSS4St wSS4Out rfl rfl rfl rfl,
    by decide⟩

/-- A 7-row, one-feature, single-class table for the C4 counterexample. -/
def cT4 : DataFrame :=
  ⟨[⟨"Patient_ID", .tInt, (List.range 7).map (fun i => .int i)⟩,
    ⟨"f1", .tInt, ([3, 1, 4, 1, 5, 9, 2] : List Int).map Value.int⟩,
    ⟨"Survival_Prediction", .tStr,
      ["s", "s", "s", "s", "s", "s", "s"].map Value.str⟩]⟩

/-- The pipeline run on `cT4`. -/
def cRun4 : Except CustomException (PState × Outputs) × FS :=
  runPipeline (.ok cT4) "artifacts/processed" sampleFS

/-- Its end state. -/
def cSt4 : PState :=
  match cRun4.1 with
  | .ok p => p.1
  | .error _ => default

/-- Its outputs. -/
def cOut4 : Outputs :=
  match cRun4.1 with
  | .ok p => p.2
  | .error _ => default

/-- Counterexample to C4 as stated: on a 7-row table the pipeline
produces 2 test rows and 5 train rows, while the claimed shapes
`round(0.2·7) = round(1.4) = 1` and `round(0.8·7) = round(5.6) = 6`
differ — sklearn takes the ceiling of the test share, not the nearest
integer. -/
theorem seven_rows_split_is_not_round :
    cT4.nRows = 7
    ∧ cRun4.1 = .ok (cSt4, cOut4)
    ∧ cOut4.X_test.length = 2
    ∧ cOut4.X_train.length = 5
    ∧ round ((2 : ℚ) / 10 * 7) = 1
    ∧ round ((8 : ℚ) / 10 * 7) = 6
    ∧ (cOut4.X_test.length : ℤ) ≠ round ((2 : ℚ) / 10 * 7)
    ∧ (cOut4.X_train.length : ℤ) ≠ round ((8 : ℚ) / 10 * 7) := by
  have h1 : round ((2 : ℚ) / 10 * 7) = 1 := by norm_num [round_eq]
  have h2 : round ((8 : ℚ) / 10 * 7) = 6 := by norm_num [round_eq]
  have h3 : cOut4.X_test.length = 2 := by decide
  have h4 : cOut4.X_train.length = 5 := by decide
  refine ⟨rfl, rfl, h3, h4, h1, h2, ?_, ?_⟩
  · rw [h1, h3]; decide
  · rw [h2, h4]; decide

/-! ### Claim C10 — the target vector is only partitioned -/

theorem findCol_dropCol (df : DataFrame) (nm nm' : String) (hne : nm ≠ nm') :
    (df.dropCol nm').findCol nm = df.findCol nm := by
  simp only [DataFrame.findCol, DataFrame.dropCol]
  refine find?_filter_imp _ _ _ ?_
  intro c hc
  have : c.name = nm := by simpa using hc
  simp [this, hne]

theorem encodeColumn_length (c : Column) :
    (encodeColumn c).cells.length = c.cells.length := by
  unfold encodeColumn
  split <;> simp

theorem encodeColumn_numeric (c : Column) :
    ([Dtype.tInt, Dtype.tFloat] : List Dtype).contains (encodeColumn c).dtype =
      true := by
  unfold encodeColumn
  cases hc : c.dtype <;> simp [hc]

theorem nRows_eq (X : DataFrame) (k : Nat) (hne : X.cols ≠ [])
    (hall : ∀ c ∈ X.cols, c.cells.length = k) : X.nRows = k := by
  cases hX : X.cols with
  | nil => exact absurd hX hne
  | cons c cs =>
    unfold DataFrame.nRows
    rw [hX]
    exact hall c (by rw [hX]; simp)

theorem mem_filterMap_findCol (X : DataFrame) (ns : List String) (c : Column)
    (hc : c ∈ ns.filterMap X.findCol) : c ∈ X.cols := by
  obtain ⟨nm, _, hfind⟩ := List.mem_filterMap.mp hc
  exact List.mem_of_find?_eq_some hfind

theorem filterMap_findCol_ne_nil (X : DataFrame) (ns : List String)
    (hne : ns ≠ []) (hns : ∀ nm ∈ ns, nm ∈ X.names) :
    ns.filterMap X.findCol ≠ [] := by
  cases ns with
  | nil => exact absurd rfl hne
  | cons nm rest =>
    obtain ⟨c, hc, _⟩ := findCol_of_mem_names X nm (hns nm (by simp))
    simp [List.filterMap_cons, hc]

/-- After encoding, every column is numeric, so the selector's dtype
filter keeps all of them. -/
theorem selectDtypes_encoded (ft : List Column) (idx : List Nat) :
    ((⟨ft.map encodeColumn⟩ : DataFrame).rowsAt idx).selectDtypes
        [.tInt, .tFloat] =
      ((⟨ft.map encodeColumn⟩ : DataFrame).rowsAt idx).cols := by
  apply List.filter_eq_self.mpr
  intro c hc
  simp only [DataFrame.rowsAt, List.map_map, List.mem_map] at hc
  obtain ⟨c0, _, hc0⟩ := hc
  have := encodeColumn_numeric c0
  rw [← hc0]
  simpa using this

/-- The selected-feature list is nonempty whenever at least one feature
column exists. -/
theorem topFeaturesOf_ne_nil (ft : List Column) (yc : Column)
    (hne : ft ≠ []) :
    topFeaturesOf ⟨ft.map encodeColumn⟩ yc ≠ [] := by
  have hlen : (rankingOf ⟨ft.map encodeColumn⟩ yc).length = ft.length := by
    have h1 : (rankingOf ⟨ft.map encodeColumn⟩ yc).length =
        (chi2Table ((⟨ft.map encodeColumn⟩ : DataFrame).rowsAt
          (provTrainIdx ⟨ft.map encodeColumn⟩))
          (cellsAt yc.cells (provTrainIdx ⟨ft.map encodeColumn⟩))).length :=
      (List.perm_insertionSort scoreDesc _).length_eq
    rw [h1]
    simp only [chi2Table, List.length_map]
    rw [selectDtypes_encoded]
    simp [DataFrame.rowsAt]
  have hpos : 0 < ft.length := List.length_pos.mpr hne
  have : (topFeaturesOf ⟨ft.map encodeColumn⟩ yc).length =
      min 5 ft.length := by
    simp [topFeaturesOf, hlen, Nat.min_comm]
  intro hnil
  rw [hnil] at this
  simp only [List.length_nil] at this
  omega

/-- Reading back the persisted targets of a successful save. -/
theorem save_ok_reads_targets (s : PState) (o : Outputs) (op : String)
    (fs fs' : FS) (h : save_data_and_scaler s o op fs = (s, .ok fs')) :
    fs'.readFile (pathJoin op "y_train.pkl") = some (.vec o.y_train)
    ∧ fs'.readFile (pathJoin op "y_test.pkl") = some (.vec o.y_test) := by
  by_cases hw : fs.writable = true
  · simp only [save_data_and_scaler, hw, if_true] at h
    injection h with ha hb
    injection hb with hc
    subst hc
    constructor
    · rw [readFile_setFile_other _ _ _ _ (pathJoin_ne op (by decide)),
        readFile_setFile_other _ _ _ _ (pathJoin_ne op (by decide)),
        readFile_setFile_same]
    · rw [readFile_setFile_other _ _ _ _ (pathJoin_ne op (by decide)),
        readFile_setFile_same]
  · simp [save_data_and_scaler, hw] at h

/-- Claim C10: the target vector is never encoded, scaled, or otherwise
transformed after extraction: the persisted `y_train`/`y_test` are, taken
together, a permutation of the original target column of the input table
(string values included), merely partitioned by the final split. -/
theorem target_only_partitioned (df : DataFrame) (op : String) (fs0 : FS)
    (st : PState) (out : Outputs) (fs' : FS) (yc : Column)
    (h : runPipeline (.ok df) op fs0 = (.ok (st, out), fs'))
    (hwf : ∀ c ∈ df.cols, c.cells.length = df.nRows)
    (hfeat : ∃ c ∈ df.cols, c.name ≠ "Patient_ID" ∧
      c.name ≠ "Survival_Prediction")
    (hyc : df.findCol "Survival_Prediction" = some yc) :
    out.y_train ++ out.y_test ~ yc.cells
    ∧ fs'.readFile (pathJoin op "y_train.pkl") = some (.vec out.y_train)
    ∧ fs'.readFile (pathJoin op "y_test.pkl") = some (.vec out.y_test) := by
  obtain ⟨s1, s2, s3, hld, hpp, hfs, hss, hsv⟩ :=
    runPipeline_ok_inv (.ok df) op fs0 st out fs' h
  have hs1 : s1 = { initState with df := some df } := by
    simpa [load_data] using hld.symm
  subst hs1
  obtain ⟨ycol, hyfind, hs2⟩ := preprocess_ok_inv _ df s2 rfl hpp
  have hycol : ycol = yc := by
    rw [findCol_dropCol df _ _ (by decide), hyc] at hyfind
    exact (Option.some.inj hyfind).symm
  rw [hycol] at hs2
  set ft := (featureTableOf df).cols with hft
  set X1 : DataFrame := ⟨ft.map encodeColumn⟩ with hX1
  have hX2 : s2.X = some X1 := by rw [hs2]
  have hy2 : s2.y = some yc := by rw [hs2]
  have hfsok := feature_selection_eq s2 X1 yc hX2 hy2
  rw [hfs] at hfsok
  have hs3 := Except.ok.inj hfsok
  set X' : DataFrame := ⟨(topFeaturesOf X1 yc).filterMap X1.findCol⟩ with hX'
  have hX3 : s3.X = some X' := by rw [hs3]
  have hy3 : s3.y = some yc := by rw [hs3]; exact hy2
  have hssok := split_and_scale_eq s3 X' yc hX3 hy3
  rw [hss] at hssok
  have hout := congrArg Prod.snd (Except.ok.inj hssok)
  simp only at hout
  -- row counts
  have hftne : ft ≠ [] := by
    obtain ⟨c, hc, hcp, hcs⟩ := hfeat
    have : c ∈ ft := by
      simp only [hft, featureTableOf, DataFrame.dropCol, List.mem_filter]
      exact ⟨⟨hc, by simpa using hcp⟩, by simpa using hcs⟩
    intro hnil
    rw [hnil] at this
    simp at this
  have hX1len : ∀ c ∈ X1.cols, c.cells.length = df.nRows := by
    intro c hc
    simp only [hX1, List.mem_map] at hc
    obtain ⟨c0, hc0, hcc⟩ := hc
    have hc0df : c0 ∈ df.cols := by
      have := hc0
      simp only [hft, featureTableOf, DataFrame.dropCol, List.mem_filter] at this
      exact this.1.1
    rw [← hcc, encodeColumn_length]
    exact hwf c0 hc0df
  have htopne : topFeaturesOf X1 yc ≠ [] := topFeaturesOf_ne_nil ft yc hftne
  have hXcne : X'.cols ≠ [] := by
    simp only [hX']
    exact filterMap_findCol_ne_nil X1 _ htopne (topFeaturesOf_subset_names X1 yc)
  have hXclen : ∀ c ∈ X'.cols, c.cells.length = df.nRows := by
    intro c hc
    exact hX1len c (mem_filterMap_findCol X1 _ c hc)
  have hXn : X'.nRows = df.nRows := nRows_eq X' df.nRows hXcne hXclen
  have hyclen : yc.cells.length = df.nRows :=
    hwf yc (List.mem_of_find?_eq_some hyc)
  have hlen : yc.cells.length = X'.nRows := by rw [hXn, hyclen]
  -- permutation
  have hperm : (stratSplit 42 X'.nRows yc.cells).1 ++
      (stratSplit 42 X'.nRows yc.cells).2 ~ List.range X'.nRows :=
    stratSplit_perm 42 X'.nRows yc.cells hlen
  have hperm2 : cellsAt yc.cells ((stratSplit 42 X'.nRows yc.cells).1 ++
      (stratSplit 42 X'.nRows yc.cells).2) ~ yc.cells :=
    cellsAt_perm_of_perm (by rw [hlen]; exact hperm)
  refine ⟨?_, ?_, ?_⟩
  · rw [hout]
    simpa [cellsAt_append, finalTrainIdx, finalTestIdx] using hperm2
  · exact (save_ok_reads_targets _ out op _ fs' hsv).1
  · exact (save_ok_reads_targets _ out op _ fs' hsv).2

/-- Witness for C10: on the sample table (string-typed target) the
persisted targets are a permutation of the original target column. -/
theorem target_only_partitioned_witness :
    runPipeline (.ok sampleTable) "artifacts/processed" sampleFS =
        (.ok (sampleSt, sampleOut), sampleFS')
    ∧ (∀ c ∈ sampleTable.cols, c.cells.length = sampleTable.nRows)
    ∧ (∃ c ∈ sampleTable.cols, c.name ≠ "Patient_ID" ∧
        c.name ≠ "Survival_Prediction")
    ∧ (sampleOut.y_train ++ sampleOut.y_test ~
        (["yes", "no", "yes", "no", "yes", "no", "yes", "no", "yes",
          "no"].map Value.str)
      ∧ sampleFS'.readFile (pathJoin "artifacts/processed" "y_train.pkl") =
          some (.vec sampleOut.y_train)
      ∧ sampleFS'.readFile (pathJoin "artifacts/processed" "y_test.pkl") =
          some (.vec sampleOut.y_test)) :=
  ⟨sampleRun_ok, by decide, by decide,
    target_only_partitioned sampleTable "artifacts/processed" sampleFS
      sampleSt sampleOut sampleFS'
      ⟨"Survival_Prediction", .tStr,
        ["yes", "no", "yes", "no", "yes", "no", "yes", "no", "yes",
          "no"].map Value.str⟩
      sampleRun_ok (by decide) (by decide) (by decide)⟩

end DataProc
